import Mathlib

/-!
Shallow embedding of the core of the `shirts` legal-workflow backend:
the workflow orchestrator (`workflow-orchestrator.ts`), the agent
framework (`base-agent.ts`), the intake / research / document agents,
and the retrieval (RAG) service (`rag.ts`).

Modelling conventions:
* TypeScript union types become inductive types; interfaces become
  structures.  Fields that no modelled code path ever reads
  (timestamps, uuids, addresses, e-mail/phone strings) are elided; they
  cannot influence any of the modelled functions.
* Wall-clock durations (`Date.now()` differences) are represented by a
  parameter or by `0`; they never steer control flow.
* External services (the Gemini text-generation client, the OpenAI
  embedding backend, `Math.sin`, the `hnswlib` vector index, the file
  system) are modelled as explicit parameters carrying their outcome,
  exactly at the call boundary used by the repository code.
* JavaScript `Math.round` is `⌊x + 1/2⌋`; `x || d` on numbers maps `0`
  to the default `d`; 32-bit coercion `x & x` is modelled exactly.
-/

namespace Shirts

/-! ## Shared types (backend `types/index.ts`) -/

inductive WorkflowStage
  | plaintiffIntake
  | legalResearch
  | argumentGeneration
  | documentDrafting
  | reviewAndRevision
  | finalFormatting
  | completed
deriving DecidableEq, Repr

inductive LegalCategory
  | civilLitigation
  | contractDispute
  | employmentLaw
  | personalInjury
  | intellectualProperty
  | realEstate
  | familyLaw
  | criminalDefense
  | businessLaw
  | other
deriving DecidableEq, Repr, Fintype

inductive Complexity
  | low
  | medium
  | high
deriving DecidableEq, Repr, Fintype

inductive Urgency
  | low
  | medium
  | high
  | critical
deriving DecidableEq, Repr, Fintype

inductive CaseStatus
  | intake
  | active
  | review
  | completed
  | archived
  | cancelled
deriving DecidableEq, Repr

inductive DocumentType
  | complaint
  | motion
  | brief
  | contract
  | settlementAgreement
  | discoveryRequest
  | evidenceSummary
  | legalMemo
  | courtFiling
  | correspondence
deriving DecidableEq, Repr

inductive DocumentFormat
  | pdf
  | docx
  | html
  | txt
deriving DecidableEq, Repr

inductive DocumentStatus
  | draft
  | review
  | approved
  | filed
  | archived
deriving DecidableEq, Repr

inductive Severity
  | low
  | medium
  | high
  | critical
deriving DecidableEq, Repr

inductive AgentStatus
  | idle
  | processing
  | error
  | maintenance
deriving DecidableEq, Repr

structure Document where
  id : String
  caseId : String
  dtype : DocumentType
  title : String
  content : String
  format : DocumentFormat
  version : ℕ
  status : DocumentStatus
deriving DecidableEq, Repr

structure PlaintiffInfo where
  name : String
  legalIssue : String
  description : String
  desiredOutcome : String
  urgency : Urgency
deriving DecidableEq, Repr

structure CaseDetails where
  title : String
  category : LegalCategory
  jurisdiction : String
  estimatedDuration : ℤ
  complexity : Complexity
  precedents : List String
  relevantLaws : List String
deriving DecidableEq, Repr

structure LegalCase where
  id : String
  plaintiffInfo : PlaintiffInfo
  caseDetails : CaseDetails
  status : CaseStatus
  workflowStage : WorkflowStage
  documents : List Document
deriving DecidableEq, Repr

structure WorkflowLog where
  stage : WorkflowStage
  agent : String
  action : String
  details : String
  duration : ℤ
deriving DecidableEq, Repr

structure WorkflowError where
  stage : WorkflowStage
  agent : String
  error : String
  severity : Severity
  resolved : Bool
deriving DecidableEq, Repr

structure WorkflowState where
  caseId : String
  currentStage : WorkflowStage
  completedStages : List WorkflowStage
  progress : ℤ
  logs : List WorkflowLog
  errors : List WorkflowError
deriving DecidableEq, Repr

/-- JavaScript `Math.round` on the values that occur here
(round half toward positive infinity). -/
def jsRound (q : ℚ) : ℤ := ⌊q + 1/2⌋

/-! ## Workflow orchestrator (`agents/workflow-orchestrator.ts`) -/

namespace WorkflowOrchestrator

/-- `getWorkflowStages()`. -/
def getWorkflowStages : List WorkflowStage :=
  [.plaintiffIntake, .legalResearch, .argumentGeneration,
   .documentDrafting, .reviewAndRevision, .finalFormatting]

/-- `getAgentForStage` composed with the display name of the resolved
agent instance (the name each agent constructor passes to `BaseAgent`). -/
def getAgentNameForStage : WorkflowStage → Option String
  | .plaintiffIntake => some "Legal Intake Agent"
  | .legalResearch => some "Legal Research Agent"
  | .argumentGeneration => some "Legal Research Agent"
  | .documentDrafting => some "Legal Document Agent"
  | .reviewAndRevision => some "Legal Document Agent"
  | .finalFormatting => some "Legal Document Agent"
  | .completed => none

/-- Lifecycle events emitted by the orchestrator (payload: the data the
claims are about; snapshots and ids are carried separately). -/
inductive Event
  | workflowStarted
  | workflowProgress (progress : ℤ) (currentStage : WorkflowStage)
  | stageStarted (stage : WorkflowStage)
  | stageCompleted (stage : WorkflowStage)
  | stageFailed (stage : WorkflowStage) (error : String)
  | workflowCompleted
  | workflowFailed (error : String)
  | workflowPaused
  | workflowCancelled
deriving DecidableEq, Repr

/-- `Array.prototype.indexOf` over the stage list (all call sites pass a
member of the list, so the not-found `-1` case cannot occur). -/
def stageIndexOf (l : List WorkflowStage) (s : WorkflowStage) : ℕ :=
  l.findIdx (fun t => decide (t = s))

/-- `addWorkflowLog` (timestamp elided; stage-completion durations are
wall-clock and never steer control flow, recorded as given). -/
def addWorkflowLog (stage : WorkflowStage) (agent action details : String)
    (duration : ℤ) (w : WorkflowState) : WorkflowState :=
  { w with logs := w.logs ++ [⟨stage, agent, action, details, duration⟩] }

/-- `addWorkflowError` (timestamp elided; `resolved` is initialised `false`). -/
def addWorkflowError (stage : WorkflowStage) (agent error : String)
    (severity : Severity) (w : WorkflowState) : WorkflowState :=
  { w with errors := w.errors ++ [⟨stage, agent, error, severity, false⟩] }

/-- The state mutation performed by `updateWorkflowProgress`:
`progress = Math.round((stages.indexOf(currentStage) / stages.length) * 100)`,
and `currentStage` is (re-)assigned. -/
def updateWorkflowProgress (stage : WorkflowStage) (w : WorkflowState) :
    WorkflowState :=
  { w with
      progress :=
        jsRound (((stageIndexOf getWorkflowStages stage : ℚ) /
          (getWorkflowStages.length : ℚ)) * 100)
      currentStage := stage }

/-- The stage loop of `processWorkflow`.  `oc s` is the outcome of
`agent.process` at stage `s` (the agent resolved for `s`): `.ok` means
the call resolves, `.error m` that it rejects with message `m`.
Returns the mutated workflow state, the events emitted during the loop,
and `some m` iff the loop threw with message `m`. -/
def runStages (oc : WorkflowStage → Except String Unit) :
    List WorkflowStage → WorkflowState →
    WorkflowState × List Event × Option String
  | [], w => (w, [], none)
  | s :: rest, w =>
    if s ∈ w.completedStages then
      runStages oc rest w
    else
      let w₁ := updateWorkflowProgress s { w with currentStage := s }
      let evs : List Event :=
        [.workflowProgress w₁.progress s, .stageStarted s]
      match getAgentNameForStage s with
      | none =>
        -- `throw new Error('No agent available for stage: ...')`
        (w₁, evs, some "No agent available for stage")
      | some agent =>
        match oc s with
        | .ok _ =>
          let w₂ := addWorkflowLog s agent "completed"
            "Stage completed successfully" 0
            { w₁ with completedStages := w₁.completedStages ++ [s] }
          let r := runStages oc rest w₂
          (r.1, evs ++ [.stageCompleted s] ++ r.2.1, r.2.2)
        | .error m =>
          let w₂ := addWorkflowError s agent m .high w₁
          (w₂, evs ++ [.stageFailed s m], some m)

/-- `processWorkflow` on a found workflow state: run the stage loop;
on success mark the workflow completed with progress 100; on failure
record the orchestrator-level error against the current stage and
re-throw. -/
def processWorkflow (oc : WorkflowStage → Except String Unit)
    (w : WorkflowState) : WorkflowState × List Event × Except String Unit :=
  let r := runStages oc getWorkflowStages w
  match r.2.2 with
  | none =>
    let w₂ := addWorkflowLog .completed "workflow-orchestrator" "completed"
      "Workflow completed successfully" 0
      { r.1 with currentStage := .completed, progress := 100 }
    (w₂, r.2.1 ++ [.workflowCompleted], .ok ())
  | some m =>
    let w₂ := addWorkflowError r.1.currentStage "workflow-orchestrator" m
      .critical r.1
    (w₂, r.2.1 ++ [.workflowFailed m], .error m)

/-- The initial workflow state allocated by `startWorkflow`
(`estimatedCompletion` is a wall-clock date and is elided). -/
def initialWorkflowState (caseId : String) : WorkflowState :=
  addWorkflowLog .plaintiffIntake "workflow-orchestrator" "started"
    "Workflow initiated" 0
    { caseId := caseId
      currentStage := .plaintiffIntake
      completedStages := []
      progress := 0
      logs := []
      errors := [] }

/-- Orchestrator-level operations driving one or more workflows.
`process` carries the outcome of each stage's agent call. -/
inductive Op
  | start (caseId : String)
  | process (id : ℕ) (oc : WorkflowStage → Except String Unit)
  | pause (id : ℕ)
  | cancel (id : ℕ)

/-- The orchestrator's own state: the `activeWorkflows` map (ids are
allocated sequentially, standing in for uuids) and the stream of
emitted events tagged by workflow id. -/
structure OrchestratorState where
  nextId : ℕ
  workflows : List (ℕ × WorkflowState)
  events : List (ℕ × Event)
deriving Repr

def lookupWorkflow (o : OrchestratorState) (id : ℕ) : Option WorkflowState :=
  (o.workflows.find? (fun p => decide (p.1 = id))).map (·.2)

def setWorkflow (o : OrchestratorState) (id : ℕ) (w : WorkflowState) :
    OrchestratorState :=
  { o with workflows := o.workflows.map (fun p => if p.1 = id then (id, w) else p) }

/-- One orchestrator operation.  Operations on an unknown workflow id
throw without touching any state, so they leave the model unchanged. -/
def applyOp (o : OrchestratorState) : Op → OrchestratorState
  | .start caseId =>
    { nextId := o.nextId + 1
      workflows := o.workflows ++ [(o.nextId, initialWorkflowState caseId)]
      events := o.events ++ [(o.nextId, .workflowStarted)] }
  | .process id oc =>
    match lookupWorkflow o id with
    | none => o
    | some w =>
      let r := processWorkflow oc w
      { setWorkflow o id r.1 with
          events := o.events ++ r.2.1.map (fun e => (id, e)) }
  | .pause id =>
    match lookupWorkflow o id with
    | none => o
    | some w =>
      let w' := addWorkflowLog w.currentStage "workflow-orchestrator" "paused"
        "Workflow paused by user" 0 w
      { setWorkflow o id w' with events := o.events ++ [(id, .workflowPaused)] }
  | .cancel id =>
    match lookupWorkflow o id with
    | none => o
    | some w =>
      -- the cancellation log is written and then the state is deleted
      let _ := addWorkflowLog w.currentStage "workflow-orchestrator" "cancelled"
        "Workflow cancelled by user" 0 w
      { o with
          workflows := o.workflows.filter (fun p => decide (p.1 ≠ id))
          events := o.events ++ [(id, .workflowCancelled)] }

def initialOrchestrator : OrchestratorState := ⟨0, [], []⟩

def runOps (ops : List Op) : OrchestratorState :=
  ops.foldl applyOp initialOrchestrator

end WorkflowOrchestrator

/-! ## Agent framework (`agents/base-agent.ts`) -/

namespace BaseAgent

/-- The mutable per-instance state of a `BaseAgent`
(`this.agent` plus the `isProcessing` single-flight flag;
uuid and static descriptor strings elided). -/
structure AgentState where
  name : String
  status : AgentStatus
  isProcessing : Bool
  processedCases : ℕ
  averageProcessingTime : ℚ
  currentTask : Option String
deriving DecidableEq, Repr

/-- The state a freshly constructed agent starts in. -/
def initialAgent (name : String) : AgentState :=
  ⟨name, .idle, false, 0, 0, none⟩

/-- `updateMetrics`: running mean of processing time and processed-case
counter. -/
def updateMetrics (processingTime : ℚ) (a : AgentState) : AgentState :=
  let n := a.processedCases + 1
  { a with
      processedCases := n
      averageProcessingTime :=
        if n = 1 then processingTime
        else (a.averageProcessingTime * ((n : ℚ) - 1) + processingTime) / n }

/-- The `finally` block of `process`: release the in-flight flag, clear
the current task, and return to `idle` unless the status was left at
`error`. -/
def finallyBlock (a : AgentState) : AgentState :=
  { a with
      isProcessing := false
      currentTask := none
      status := if a.status = .error then a.status else .idle }

def busyMessage (name : String) : String :=
  "Agent " ++ name ++ " is already processing a case"

/-- `BaseAgent.process`.  `task` is the outcome of the variant's
`executeTask`, `processingTime` the elapsed wall-clock duration.
Returns the post-call agent state and the call's own outcome. -/
def process (task : Except String LegalCase) (processingTime : ℚ)
    (caseId : String) (a : AgentState) :
    AgentState × Except String LegalCase :=
  if a.isProcessing then
    (a, .error (busyMessage a.name))
  else
    let a₁ := { a with
      isProcessing := true
      status := .processing
      currentTask := some ("Processing case " ++ caseId) }
    match task with
    | .ok c => (finallyBlock (updateMetrics processingTime a₁), .ok c)
    | .error m => (finallyBlock { a₁ with status := .error }, .error m)

/-- `isAvailable()`. -/
def isAvailable (a : AgentState) : Bool :=
  decide (a.status = .idle) && !a.isProcessing

end BaseAgent

/-! ## Document agent (`agents/document-agent.ts`) and the
document-generator / validation services it drives -/

namespace DocumentAgent

/-- First-seen-order deduplication, the behaviour of
`[...new Set(documents)]`. -/
def jsSetDedupAux (seen : List DocumentType) :
    List DocumentType → List DocumentType
  | [] => []
  | a :: l =>
    if a ∈ seen then jsSetDedupAux seen l
    else a :: jsSetDedupAux (a :: seen) l

def jsSetDedup (l : List DocumentType) : List DocumentType :=
  jsSetDedupAux [] l

/-- `determineDocumentsNeeded`: fixed category table, `high` complexity
appends a `brief`, `critical` urgency prepends a `motion`, then
first-seen-order deduplication. -/
def determineDocumentsNeeded (caseData : LegalCase) : List DocumentType :=
  let base : List DocumentType :=
    match caseData.caseDetails.category with
    | .civilLitigation => [.complaint, .discoveryRequest]
    | .contractDispute => [.complaint, .motion, .legalMemo]
    | .employmentLaw => [.complaint, .discoveryRequest, .legalMemo]
    | .personalInjury => [.complaint, .discoveryRequest, .evidenceSummary]
    | .intellectualProperty => [.complaint, .motion, .brief]
    | .realEstate => [.contract, .legalMemo]
    | .familyLaw => [.complaint, .motion]
    | .criminalDefense => [.motion, .brief]
    | .businessLaw => [.contract, .legalMemo]
    | .other => [.legalMemo]
  let withBrief :=
    if caseData.caseDetails.complexity = .high then base ++ [.brief] else base
  let withUrgent :=
    if caseData.plaintiffInfo.urgency = .critical then
      .motion :: withBrief
    else withBrief
  jsSetDedup withUrgent

/-- `String.includes` of the source, via character lists. -/
def strIncludes (s pat : String) : Bool :=
  decide (pat.data <:+: s.data)

/-- The deterministic `issues` computed by
`DocumentGeneratorService.validateDocument` (the AI review call is
wrapped in try/catch and can only add to `suggestions`, never to
`issues`, so `isValid` does not depend on it). -/
def validateIssues (d : Document) : List String :=
  (if d.content.length < 100 then
    ["Document appears to be too short for a legal document"] else []) ++
  (if d.dtype = .complaint && !(strIncludes d.content "CAUSES OF ACTION") then
    ["Complaint should include a \x22CAUSES OF ACTION\x22 section"] else [])

/-- `validateDocument(...).isValid` (`issues.length === 0`). -/
def documentIsValid (d : Document) : Bool :=
  decide (validateIssues d = [])

/-- `DocumentGeneratorService.generateDocument` for one document-type /
format pair.  `genContent` is the outcome of the Gemini content call
(`generateDocumentContent`), `render` the outcome of the PDF/DOCX/HTML
rendering plus file write; any failure inside is re-thrown wrapped.
Uuid and wall-clock fields elided; title modelled by its
document-type/case inputs. -/
def generateDocument (genContent : Except String String)
    (render : Except String Unit) (caseData : LegalCase)
    (documentType : DocumentType) (format : DocumentFormat) :
    Except String Document :=
  match genContent with
  | .error e => .error ("Document generation failed: " ++ e)
  | .ok content =>
    match render with
    | .error e => .error ("Document generation failed: " ++ e)
    | .ok _ =>
      .ok { id := "generated"
            caseId := caseData.id
            dtype := documentType
            title := caseData.caseDetails.title
            content := content
            format := format
            version := 1
            status := .draft }

/-- The per-document-type body of `executeTask`'s generation loop: the
pdf and docx `generateDocument` calls inside one `try`; a failure of
either is caught, logged and skipped, so the accumulator is returned
unchanged in that case. -/
def generateStep (genContent : DocumentType → DocumentFormat → Except String String)
    (render : DocumentFormat → Except String Unit) (caseData : LegalCase)
    (acc : List Document) (t : DocumentType) : List Document :=
  match generateDocument (genContent t .pdf) (render .pdf) caseData t .pdf with
  | .error _ => acc
  | .ok pdfDocument =>
    match generateDocument (genContent t .docx) (render .docx) caseData t .docx with
    | .error _ => acc
    | .ok docxDocument => acc ++ [pdfDocument, docxDocument]

/-- `DocumentAgent.executeTask`: determine the needed types, generate
each in pdf and docx (failures caught per type), validate every
generated document (demoting to `review` instead of `approved`), append
the documents to the case, and advance the stage. -/
def executeTask (genContent : DocumentType → DocumentFormat → Except String String)
    (render : DocumentFormat → Except String Unit) (caseData : LegalCase) :
    Except String LegalCase :=
  let documentsToGenerate := determineDocumentsNeeded caseData
  let generatedDocuments :=
    documentsToGenerate.foldl (generateStep genContent render caseData) []
  let validated := generatedDocuments.map (fun d =>
    { d with status := if documentIsValid d then .approved else .review })
  .ok { caseData with
          documents := caseData.documents ++ validated
          workflowStage := .reviewAndRevision }

end DocumentAgent

/-! ## Intake agent AI augmentation (`agents/intake-agent.ts`) -/

namespace IntakeAgent

/-- The structure `enhancePlaintiffInfo` expects from the parsed model
reply; absent fields are JS `undefined` (falsy), modelled as `none`. -/
structure IntakeAnalysis where
  recommendedUrgency : Option Urgency
  enhancedDescription : Option String
deriving Repr

/-- `enhancePlaintiffInfo`.  `gen` is the outcome of the Gemini call,
`parse` the outcome of `JSON.parse` plus field extraction (`none` when
the reply cannot be parsed as the expected structure).  Any failure is
caught and the already-validated original values are returned. -/
def enhancePlaintiffInfo (gen : Except String String)
    (parse : String → Option IntakeAnalysis) (plaintiffInfo : PlaintiffInfo) :
    PlaintiffInfo :=
  match gen with
  | .error _ => plaintiffInfo
  | .ok content =>
    match parse content with
    | none => plaintiffInfo
    | some analysis =>
      { plaintiffInfo with
          urgency := analysis.recommendedUrgency.getD plaintiffInfo.urgency
          description :=
            analysis.enhancedDescription.getD plaintiffInfo.description }

end IntakeAgent

/-! ## Retrieval engine (`services/rag.ts`) -/

namespace RAGService

/-- A stored document record: the fields of the ingested document that
the query pipeline reads (`metadata.type`, `metadata.jurisdiction` and
`metadata.date` are the metadata fields `applyFilters` inspects; the
date is a timestamp). -/
structure RagDoc where
  id : String
  title : String
  content : String
  source : String
  mtype : String
  jurisdiction : String
  mdate : ℤ
deriving DecidableEq, Repr

/-- The service state: the initialization flag, the metadata map
(keys are the sequential insertion indices, so a list indexed by
position) and the vectors held by the `hnswlib` index, in insertion
(label) order. -/
structure RAGState where
  isInitialized : Bool
  documents : List RagDoc
  vectors : List (List ℚ)
deriving Repr

structure RAGFilters where
  documentType : Option (List String)
  jurisdiction : Option (List String)
  dateRange : Option (Option ℤ × Option ℤ)
  relevanceScore : Option ℚ
deriving Repr

structure RAGQueryRequest where
  query : String
  maxResults : Option ℕ
  threshold : Option ℚ
  filters : Option RAGFilters
deriving Repr

structure RetrievedDocument where
  id : String
  title : String
  content : String
  source : String
  relevanceScore : ℚ
  mtype : String
  jurisdiction : String
  mdate : ℤ
deriving DecidableEq, Repr

structure RAGResult where
  documents : List RetrievedDocument
  totalResults : ℕ
  queryTime : ℤ
  confidence : ℚ
deriving DecidableEq, Repr

/-- `x || d` for the numeric request fields (`0` is falsy). -/
def jsOrNat (x : Option ℕ) (d : ℕ) : ℕ :=
  match x with
  | none => d
  | some n => if n = 0 then d else n

def jsOrRat (x : Option ℚ) (d : ℚ) : ℚ :=
  match x with
  | none => d
  | some q => if q = 0 then d else q

/-- `simpleHash`: JavaScript `hash = ((hash << 5) - hash) + charCode;
hash = hash & hash` over the UTF-16 code units, then `Math.abs`.
`toInt32` is the 32-bit signed coercion performed by `<<` and `&`. -/
def toInt32 (n : ℤ) : ℤ := (n + 2 ^ 31) % 2 ^ 32 - 2 ^ 31

def simpleHashStep (hash : ℤ) (c : Char) : ℤ :=
  toInt32 (toInt32 (hash * 32) - hash + c.toNat)

def simpleHash (str : String) : ℤ :=
  |str.data.foldl simpleHashStep 0|

/-- The fixed embedding dimension (`OpenAI embedding dimension`). -/
def vectorDimension : ℕ := 1536

/-- `getMockEmbedding`: `embedding[i] = Math.sin(hash * (i + 1)) * 0.1`
over `vectorDimension` slots.  `sin` stands for `Math.sin`, an external
pure function of its argument. -/
def getMockEmbedding (sin : ℚ → ℚ) (text : String) : List ℚ :=
  (List.range vectorDimension).map (fun (i : ℕ) =>
    sin ((simpleHash text : ℚ) * ((i : ℚ) + 1)) * (1 / 10))

/-- `getEmbedding`: the real backend when a key is configured and the
call succeeds, otherwise the deterministic mock embedding. -/
def getEmbedding (hasApiKey : Bool) (openai : String → Except String (List ℚ))
    (sin : ℚ → ℚ) (text : String) : List ℚ :=
  if !hasApiKey then getMockEmbedding sin text
  else
    match openai text with
    | .ok v => v
    | .error _ => getMockEmbedding sin text

/-- `searchSimilar`.  `knn` is the `hnswlib` `searchKnn` call on the
index contents, returning labelled `(neighbor, distance)` pairs or
throwing; the mapping to scored documents (`score = 1 - distance`,
threshold cut, dropped unknown labels) is the repository's own code. -/
def searchSimilar (knn : List (List ℚ) → List ℚ → ℕ → Except String (List (ℕ × ℚ)))
    (s : RAGState) (queryEmbedding : List ℚ) (maxResults : ℕ) (threshold : ℚ) :
    Except String (List (RagDoc × ℚ)) :=
  if s.documents.length = 0 then .ok []
  else
    match knn s.vectors queryEmbedding maxResults with
    | .error e => .error e
    | .ok searchResults =>
      .ok (searchResults.filterMap (fun p =>
        match s.documents.get? p.1 with
        | none => none
        | some document =>
          let score := 1 - p.2
          if score < threshold then none else some (document, score)))

/-- `applyFilters`: post-hoc metadata filter (empty filter lists and a
`relevanceScore` of `0` are falsy and disable the corresponding check,
as in the source). -/
def applyFilters (results : List (RagDoc × ℚ)) (filters : Option RAGFilters) :
    List (RagDoc × ℚ) :=
  match filters with
  | none => results
  | some f =>
    results.filter (fun r =>
      (match f.documentType with
       | some ts => decide (ts = []) || decide (r.1.mtype ∈ ts)
       | none => true) &&
      (match f.jurisdiction with
       | some js => decide (js = []) || decide (r.1.jurisdiction ∈ js)
       | none => true) &&
      (match f.dateRange with
       | some dr =>
         (match dr.1 with
          | some a => !decide (r.1.mdate < a)
          | none => true) &&
         (match dr.2 with
          | some b => !decide (b < r.1.mdate)
          | none => true)
       | none => true) &&
      (match f.relevanceScore with
       | some m => decide (m = 0) || !decide (r.2 < m)
       | none => true))

/-- The `try` body of `query`: embed, k-nearest search with
`maxResults || 10` and `threshold || 0.7`, post-filter, and assemble
the result; any error caught inside yields the empty result with
confidence 0.  `elapsed` stands for the measured `queryTime`. -/
def queryBody (knn : List (List ℚ) → List ℚ → ℕ → Except String (List (ℕ × ℚ)))
    (embed : String → List ℚ) (s : RAGState) (request : RAGQueryRequest)
    (elapsed : ℤ) : RAGResult :=
  let queryEmbedding := embed request.query
  let k := jsOrNat request.maxResults 10
  let threshold := jsOrRat request.threshold (7 / 10)
  match searchSimilar knn s queryEmbedding k threshold with
  | .error _ => { documents := [], totalResults := 0, queryTime := elapsed, confidence := 0 }
  | .ok searchResults =>
    let filteredResults := applyFilters searchResults request.filters
    let retrievedDocuments := filteredResults.map (fun r =>
      { id := r.1.id
        title := r.1.title
        content := r.1.content
        source := r.1.source
        relevanceScore := r.2
        mtype := r.1.mtype
        jurisdiction := r.1.jurisdiction
        mdate := r.1.mdate : RetrievedDocument })
    { documents := retrievedDocuments
      totalResults := retrievedDocuments.length
      queryTime := elapsed
      confidence :=
        if 0 < retrievedDocuments.length then
          (retrievedDocuments.map (·.relevanceScore)).sum /
            (retrievedDocuments.length : ℚ)
        else 0 }

/-- `RAGService.query`.  The lazy `initialize()` call sits outside the
`try` block: on an uninitialized service whose initialization fails
(`init = .error e`), `query` rejects; otherwise the body never throws. -/
def query (knn : List (List ℚ) → List ℚ → ℕ → Except String (List (ℕ × ℚ)))
    (embed : String → List ℚ) (init : Except String RAGState) (s : RAGState)
    (request : RAGQueryRequest) (elapsed : ℤ) : Except String RAGResult :=
  if s.isInitialized then
    .ok (queryBody knn embed s request elapsed)
  else
    match init with
    | .error e => .error ("RAG Service initialization failed: " ++ e)
    | .ok s' => .ok (queryBody knn embed s' request elapsed)

/-- `addDocument` on an initialized service: compute the embedding of
the content, insert the vector at the next sequential label, and store
the metadata record under that index (synchronous persistence elided). -/
def addDocument (embed : String → List ℚ) (s : RAGState) (d : RagDoc) :
    RAGState :=
  { s with
      documents := s.documents ++ [d]
      vectors := s.vectors ++ [embed d.content] }

end RAGService

/-! ## Research agent precedent extraction (`agents/research-agent.ts`) -/

namespace ResearchAgent

/-- One entry of the structure `identifyKeyPrecedents` expects from the
parsed model reply. -/
structure PrecedentEntry where
  caseName : String
  relevance : ℚ
  principle : String
deriving Repr

/-- `identifyKeyPrecedents`.  `gen` is the Gemini call outcome, `parse`
the `JSON.parse` outcome; on either failing, the deterministic
fallback is the first five raw case-law titles. -/
def identifyKeyPrecedents (gen : Except String String)
    (parse : String → Option (List PrecedentEntry))
    (documents : List RAGService.RetrievedDocument) : List String :=
  let precedentDocs :=
    (documents.filter (fun d => decide (d.mtype = "case-law"))).take 15
  if precedentDocs.length = 0 then []
  else
    match gen with
    | .error _ => (precedentDocs.take 5).map (·.title)
    | .ok content =>
      match parse content with
      | none => (precedentDocs.take 5).map (·.title)
      | some precedents =>
        (precedents.filter (fun p => decide (7 ≤ p.relevance))).map
          (fun p => p.caseName ++ " - " ++ p.principle)

end ResearchAgent

/-! ## Helper lemmas: progress arithmetic -/

/-- The progress value written for the stage at index `i`. -/
def stageProgressAt (i : ℕ) : ℤ := jsRound ((i : ℚ) / 6 * 100)

theorem jsRound_mono {q q' : ℚ} (h : q ≤ q') : jsRound q ≤ jsRound q' :=
  Int.floor_mono (by linarith)

theorem stageProgressAt_mono {i j : ℕ} (h : i ≤ j) :
    stageProgressAt i ≤ stageProgressAt j := by
  apply jsRound_mono
  have : (i : ℚ) ≤ (j : ℚ) := by exact_mod_cast h
  nlinarith

theorem stageProgressAt_values :
    stageProgressAt 0 = 0 ∧ stageProgressAt 1 = 17 ∧ stageProgressAt 2 = 33 ∧
    stageProgressAt 3 = 50 ∧ stageProgressAt 4 = 67 ∧ stageProgressAt 5 = 83 ∧
    stageProgressAt 6 = 100 := by
  refine ⟨?_, ?_, ?_, ?_, ?_, ?_, ?_⟩ <;> with_unfolding_all rfl

theorem stageProgressAt_le_100 {i : ℕ} (h : i ≤ 6) :
    stageProgressAt i ≤ 100 := by
  interval_cases i <;>
    simp [stageProgressAt_values.1, stageProgressAt_values.2.1,
      stageProgressAt_values.2.2.1, stageProgressAt_values.2.2.2.1,
      stageProgressAt_values.2.2.2.2.1, stageProgressAt_values.2.2.2.2.2.1,
      stageProgressAt_values.2.2.2.2.2.2]

namespace WorkflowOrchestrator

theorem updateWorkflowProgress_def (s : WorkflowStage) (w : WorkflowState) :
    updateWorkflowProgress s w =
      { w with
          progress := stageProgressAt (stageIndexOf getWorkflowStages s)
          currentStage := s } := by
  have h6 : ((getWorkflowStages.length : ℚ)) = 6 := by
    simp [getWorkflowStages]
  simp only [updateWorkflowProgress, stageProgressAt, h6]

/-! ## Helper lemmas: `findIdx` bookkeeping -/

theorem findIdx_append_cons {α : Type} (p : α → Bool) (pre : List α) (s : α)
    (rest : List α) (hpre : ∀ x ∈ pre, p x = false) (hs : p s = true) :
    (pre ++ s :: rest).findIdx p = pre.length := by
  induction pre with
  | nil => simp [List.findIdx_cons, hs]
  | cons a l ih =>
    have ha : p a = false := hpre a (by simp)
    simp only [List.cons_append, List.findIdx_cons, ha, cond_false, List.length_cons]
    rw [ih (fun x hx => hpre x (by simp [hx]))]

theorem findIdx_not_mem_mono {α : Type} [DecidableEq α] (l : List α)
    {cs cs' : List α} (h : ∀ x ∈ cs, x ∈ cs') :
    l.findIdx (fun t => decide (t ∉ cs)) ≤ l.findIdx (fun t => decide (t ∉ cs')) := by
  induction l with
  | nil => simp
  | cons a l ih =>
    by_cases ha : a ∈ cs
    · have ha' : a ∈ cs' := h a ha
      have e1 : (decide (a ∉ cs)) = false := by simp [ha]
      have e2 : (decide (a ∉ cs')) = false := by simp [ha']
      simp only [List.findIdx_cons, e1, e2, cond_false]
      omega
    · have e1 : (decide (a ∈ cs)) = false := by simp [ha]
      simp only [List.findIdx_cons, decide_not, e1, Bool.not_false, cond_true]
      exact Nat.zero_le _

/-! ## Helper lemmas: the `processWorkflow` stage loop -/

theorem runStages_extends (oc : WorkflowStage → Except String Unit) :
    ∀ (rest : List WorkflowStage) (w : WorkflowState),
    w.completedStages <+: (runStages oc rest w).1.completedStages := by
  intro rest
  induction rest with
  | nil => intro w; simp [runStages]
  | cons s rest ih =>
    intro w
    by_cases hmem : s ∈ w.completedStages
    · simpa [runStages, hmem] using ih w
    · simp only [runStages, hmem, if_false]
      cases hag : getAgentNameForStage s with
      | none => simp [updateWorkflowProgress_def]
      | some a =>
        cases hoc : oc s with
        | ok u =>
          refine List.IsPrefix.trans ?_ (by simpa [runStages] using ih _)
          simp [addWorkflowLog, updateWorkflowProgress_def]
        | error m => simp [addWorkflowError, updateWorkflowProgress_def]

theorem runStages_nodup (oc : WorkflowStage → Except String Unit) :
    ∀ (rest : List WorkflowStage) (w : WorkflowState),
    w.completedStages.Nodup → (runStages oc rest w).1.completedStages.Nodup := by
  intro rest
  induction rest with
  | nil => intro w h; simpa [runStages] using h
  | cons s rest ih =>
    intro w h
    by_cases hmem : s ∈ w.completedStages
    · simpa [runStages, hmem] using ih w h
    · simp only [runStages, hmem, if_false]
      cases hag : getAgentNameForStage s with
      | none => simpa [updateWorkflowProgress_def] using h
      | some a =>
        cases hoc : oc s with
        | ok u =>
          have : ((updateWorkflowProgress s { w with currentStage := s }).completedStages
              ++ [s]).Nodup := by
            simp [updateWorkflowProgress_def, List.nodup_append, h, hmem]
          simpa [runStages, addWorkflowLog, updateWorkflowProgress_def] using
            ih _ (by simpa [addWorkflowLog, updateWorkflowProgress_def] using this)
        | error m => simpa [addWorkflowError, updateWorkflowProgress_def] using h

theorem runStages_complete_of_ok (oc : WorkflowStage → Except String Unit) :
    ∀ (rest : List WorkflowStage) (w : WorkflowState),
    (runStages oc rest w).2.2 = none →
    ∀ s ∈ rest, s ∈ (runStages oc rest w).1.completedStages := by
  intro rest
  induction rest with
  | nil => simp
  | cons s rest ih =>
    intro w hok t ht
    rcases List.mem_cons.mp ht with rfl | ht
    · by_cases hmem : t ∈ w.completedStages
      · simp only [runStages, hmem, if_true] at hok ⊢
        exact (runStages_extends oc rest w).subset hmem
      · simp only [runStages, hmem, if_false] at hok ⊢
        cases hag : getAgentNameForStage t with
        | none => simp [hag] at hok
        | some a =>
          simp only [hag] at hok ⊢
          cases hoc : oc t with
          | ok u =>
            simp only [hoc] at hok ⊢
            refine (runStages_extends oc rest _).subset ?_
            simp [addWorkflowLog, updateWorkflowProgress_def]
          | error m => simp [hoc] at hok
    · by_cases hmem : s ∈ w.completedStages
      · simp only [runStages, hmem, if_true] at hok ⊢
        exact ih w hok t ht
      · simp only [runStages, hmem, if_false] at hok ⊢
        cases hag : getAgentNameForStage s with
        | none => simp [hag] at hok
        | some a =>
          simp only [hag] at hok ⊢
          cases hoc : oc s with
          | ok u =>
            simp only [hoc] at hok ⊢
            exact ih _ hok t ht
          | error m => simp [hoc] at hok

theorem runStages_errors_ok (oc : WorkflowStage → Except String Unit) :
    ∀ (rest : List WorkflowStage) (w : WorkflowState),
    (runStages oc rest w).2.2 = none →
    (runStages oc rest w).1.errors = w.errors := by
  intro rest
  induction rest with
  | nil => intro w _; simp [runStages]
  | cons s rest ih =>
    intro w hok
    by_cases hmem : s ∈ w.completedStages
    · simp only [runStages, hmem, if_true] at hok ⊢
      exact ih w hok
    · simp only [runStages, hmem, if_false] at hok ⊢
      cases hag : getAgentNameForStage s with
      | none => simp [hag] at hok
      | some a =>
        simp only [hag] at hok ⊢
        cases hoc : oc s with
        | ok u =>
          simp only [hoc] at hok ⊢
          rw [ih _ hok]
          simp [addWorkflowLog, updateWorkflowProgress_def]
        | error m => simp [hoc] at hok

theorem runStages_fail_spec (oc : WorkflowStage → Except String Unit) :
    ∀ (rest : List WorkflowStage) (w : WorkflowState) (m : String),
    (runStages oc rest w).2.2 = some m →
    (∀ s ∈ rest, getAgentNameForStage s ≠ none) →
    ∃ s a, s ∈ rest ∧ getAgentNameForStage s = some a ∧ oc s = .error m ∧
      (runStages oc rest w).1.currentStage = s ∧
      s ∉ (runStages oc rest w).1.completedStages ∧
      (runStages oc rest w).1.progress =
        stageProgressAt (stageIndexOf getWorkflowStages s) ∧
      (runStages oc rest w).1.errors = w.errors ++ [⟨s, a, m, .high, false⟩] := by
  intro rest
  induction rest with
  | nil => intro w m h; simp [runStages] at h
  | cons s rest ih =>
    intro w m hfail hag
    by_cases hmem : s ∈ w.completedStages
    · simp only [runStages, hmem, if_true] at hfail ⊢
      obtain ⟨t, a, ht, h1, h2, h3, h4, h5, h6⟩ :=
        ih w m hfail (fun t ht => hag t (by simp [ht]))
      exact ⟨t, a, by simp [ht], h1, h2, h3, h4, h5, h6⟩
    · simp only [runStages, hmem, if_false] at hfail ⊢
      cases hagn : getAgentNameForStage s with
      | none => exact absurd hagn (hag s (by simp))
      | some a =>
        simp only [hagn] at hfail ⊢
        cases hoc : oc s with
        | ok u =>
          simp only [hoc, addWorkflowLog, updateWorkflowProgress_def] at hfail ⊢
          obtain ⟨t, a', ht, h1, h2, h3, h4, h5, h6⟩ :=
            ih _ m hfail (fun t ht => hag t (by simp [ht]))
          exact ⟨t, a', by simp [ht], h1, h2, h3, h4, h5, by simpa using h6⟩
        | error m' =>
          simp only [hoc] at hfail ⊢
          obtain rfl : m' = m := by simpa using hfail
          refine ⟨s, a, by simp, hagn, hoc, ?_, ?_, ?_, ?_⟩ <;>
            simp [addWorkflowError, updateWorkflowProgress_def, hmem]

theorem runStages_fail_findIdx (oc : WorkflowStage → Except String Unit) :
    ∀ (rest pre : List WorkflowStage) (w : WorkflowState) (m : String),
    getWorkflowStages = pre ++ rest →
    (∀ s ∈ pre, s ∈ w.completedStages) →
    (runStages oc rest w).2.2 = some m →
    stageIndexOf getWorkflowStages ((runStages oc rest w).1.currentStage) =
      getWorkflowStages.findIdx
        (fun t => decide (t ∉ (runStages oc rest w).1.completedStages)) := by
  intro rest
  induction rest with
  | nil => intro pre w m _ _ h; simp [runStages] at h
  | cons s rest ih =>
    intro pre w m hsplit hpre hfail
    by_cases hmem : s ∈ w.completedStages
    · simp only [runStages, hmem, if_true] at hfail ⊢
      refine ih (pre ++ [s]) w m (by simpa using hsplit) ?_ hfail
      intro t ht
      rcases List.mem_append.mp ht with ht | ht
      · exact hpre t ht
      · simpa using (List.mem_singleton.mp ht ▸ hmem)
    · have hanchor : ∀ (cs : List WorkflowStage), (∀ x ∈ pre, x ∈ cs) → s ∉ cs →
          stageIndexOf getWorkflowStages s =
            getWorkflowStages.findIdx (fun t => decide (t ∉ cs)) := by
        intro cs hcs hscs
        have h1 : stageIndexOf (pre ++ s :: rest) s = pre.length :=
          findIdx_append_cons _ pre s rest
            (fun x hx => by
              have hxs : x ≠ s := fun e => hscs (e ▸ hcs x hx)
              simp [hxs])
            (by simp)
        have h2 : (pre ++ s :: rest).findIdx (fun t => decide (t ∉ cs)) =
            pre.length :=
          findIdx_append_cons _ pre s rest
            (fun x hx => by simp [hcs x hx])
            (by simpa using hscs)
        rw [hsplit, h1, h2]
      simp only [runStages, hmem, if_false] at hfail ⊢
      cases hagn : getAgentNameForStage s with
      | none =>
        simp only [hagn] at hfail ⊢
        simp only [updateWorkflowProgress_def]
        exact hanchor w.completedStages hpre hmem
      | some a =>
        simp only [hagn] at hfail ⊢
        cases hoc : oc s with
        | ok u =>
          simp only [hoc] at hfail ⊢
          refine ih (pre ++ [s]) _ m (by simpa using hsplit) ?_ hfail
          intro t ht
          simp only [addWorkflowLog, updateWorkflowProgress_def]
          rcases List.mem_append.mp ht with ht | ht
          · simp [hpre t ht]
          · simp [List.mem_singleton.mp ht]
        | error m' =>
          simp only [hoc] at hfail ⊢
          simp only [addWorkflowError, updateWorkflowProgress_def]
          exact hanchor w.completedStages hpre hmem

/-! ## Helper lemmas: the per-workflow invariant -/

/-- The invariant every reachable workflow state satisfies:
no duplicate completed stages; at `completed` the progress is 100 and
every pipeline stage is completed; otherwise the current stage is a
pipeline stage, the progress is the rounded per-stage value at its
index, and that index is the first non-completed position. -/
def WfInv (w : WorkflowState) : Prop :=
  w.completedStages.Nodup ∧
  (w.currentStage = .completed →
    w.progress = 100 ∧ ∀ s ∈ getWorkflowStages, s ∈ w.completedStages) ∧
  (w.currentStage ≠ .completed →
    w.currentStage ∈ getWorkflowStages ∧
    w.progress = stageProgressAt (stageIndexOf getWorkflowStages w.currentStage) ∧
    stageIndexOf getWorkflowStages w.currentStage =
      getWorkflowStages.findIdx (fun t => decide (t ∉ w.completedStages)))

theorem agents_present : ∀ s ∈ getWorkflowStages, getAgentNameForStage s ≠ none := by
  decide

theorem completed_not_stage : WorkflowStage.completed ∉ getWorkflowStages := by
  decide

theorem initialWorkflowState_fields (caseId : String) :
    (initialWorkflowState caseId).currentStage = .plaintiffIntake ∧
    (initialWorkflowState caseId).progress = 0 ∧
    (initialWorkflowState caseId).completedStages = [] := ⟨rfl, rfl, rfl⟩

theorem initialWorkflowState_inv (caseId : String) :
    WfInv (initialWorkflowState caseId) := by
  obtain ⟨h1, h2, h3⟩ := initialWorkflowState_fields caseId
  refine ⟨?_, ?_, ?_⟩
  · rw [h3]; exact List.nodup_nil
  · intro h
    rw [h1] at h
    exact absurd h (by decide)
  · intro _
    rw [h1, h2, h3]
    refine ⟨by decide, ?_, ?_⟩
    · rw [show stageIndexOf getWorkflowStages WorkflowStage.plaintiffIntake = 0
        from rfl, stageProgressAt_values.1]
    · decide

theorem stageIndexOf_lt_length {l : List WorkflowStage} {s : WorkflowStage}
    (h : s ∈ l) : stageIndexOf l s < l.length :=
  List.findIdx_lt_length_of_exists ⟨s, h, by simp⟩

theorem processWorkflow_inv (oc : WorkflowStage → Except String Unit)
    (w : WorkflowState) (h : WfInv w) : WfInv (processWorkflow oc w).1 := by
  obtain ⟨hnodup, _, _⟩ := h
  cases hr : (runStages oc getWorkflowStages w).2.2 with
  | none =>
    refine ⟨?_, ?_, ?_⟩
    · simp only [processWorkflow, hr, addWorkflowLog]
      exact runStages_nodup oc getWorkflowStages w hnodup
    · intro _
      constructor
      · simp [processWorkflow, hr, addWorkflowLog]
      · intro s hs
        simp only [processWorkflow, hr, addWorkflowLog]
        exact runStages_complete_of_ok oc getWorkflowStages w hr s hs
    · intro hc
      exact absurd (by simp [processWorkflow, hr, addWorkflowLog]) hc
  | some m =>
    obtain ⟨s, a, hs, hag, hoc, hcur, hnot, hprog, herr⟩ :=
      runStages_fail_spec oc getWorkflowStages w m hr agents_present
    have hfind := runStages_fail_findIdx oc getWorkflowStages [] w m rfl
      (by simp) hr
    refine ⟨?_, ?_, ?_⟩
    · simp only [processWorkflow, hr, addWorkflowError]
      exact runStages_nodup oc getWorkflowStages w hnodup
    · intro hc
      rw [processWorkflow] at hc
      simp only [hr, addWorkflowError] at hc
      rw [hcur] at hc
      exact absurd (hc ▸ hs) completed_not_stage
    · intro _
      have hcur' : (processWorkflow oc w).1.currentStage = s := by
        simp [processWorkflow, hr, addWorkflowError, hcur]
      refine ⟨by rw [hcur']; exact hs, ?_, ?_⟩
      · rw [hcur']
        simpa [processWorkflow, hr, addWorkflowError] using hprog
      · rw [hcur']
        have : (processWorkflow oc w).1.completedStages =
            (runStages oc getWorkflowStages w).1.completedStages := by
          simp [processWorkflow, hr, addWorkflowError]
        rw [this, ← hcur]
        exact hfind

theorem processWorkflow_mono (oc : WorkflowStage → Except String Unit)
    (w : WorkflowState) (h : WfInv w) :
    w.progress ≤ (processWorkflow oc w).1.progress ∧
    w.completedStages <+: (processWorkflow oc w).1.completedStages := by
  obtain ⟨hnodup, hcomp, hrun⟩ := h
  have hpre : w.completedStages <+:
      (runStages oc getWorkflowStages w).1.completedStages :=
    runStages_extends oc getWorkflowStages w
  cases hr : (runStages oc getWorkflowStages w).2.2 with
  | none =>
    constructor
    · have h100 : (processWorkflow oc w).1.progress = 100 := by
        simp [processWorkflow, hr, addWorkflowLog]
      rw [h100]
      by_cases hc : w.currentStage = .completed
      · rw [(hcomp hc).1]
      · obtain ⟨hmem, hprog, _⟩ := hrun hc
        rw [hprog]
        exact stageProgressAt_le_100
          (le_of_lt (by
            have := stageIndexOf_lt_length hmem
            simpa [getWorkflowStages] using this))
    · simpa [processWorkflow, hr, addWorkflowLog] using hpre
  | some m =>
    obtain ⟨s, a, hs, hag, hoc, hcur, hnot, hprog, herr⟩ :=
      runStages_fail_spec oc getWorkflowStages w m hr agents_present
    have hfind := runStages_fail_findIdx oc getWorkflowStages [] w m rfl
      (by simp) hr
    constructor
    · have hprog' : (processWorkflow oc w).1.progress =
          stageProgressAt (stageIndexOf getWorkflowStages s) := by
        simpa [processWorkflow, hr, addWorkflowError] using hprog
      rw [hprog']
      by_cases hc : w.currentStage = .completed
      · exact absurd ((hcomp hc).2 s hs)
          (by
            have : s ∉ (runStages oc getWorkflowStages w).1.completedStages := hnot
            exact fun hmem => this (hpre.subset hmem))
      · obtain ⟨hmem, hprogw, hfw⟩ := hrun hc
        rw [hprogw]
        apply stageProgressAt_mono
        rw [hfw, ← hcur] at *
        rw [hfind]
        exact findIdx_not_mem_mono getWorkflowStages
          (fun x hx => hpre.subset hx)
    · simpa [processWorkflow, hr, addWorkflowError] using hpre

/-! ## Helper lemmas: workflow map bookkeeping -/

theorem lookupWorkflow_mem {o : OrchestratorState} {id : ℕ} {w : WorkflowState}
    (h : lookupWorkflow o id = some w) : (id, w) ∈ o.workflows := by
  unfold lookupWorkflow at h
  cases hf : o.workflows.find? (fun p => decide (p.1 = id)) with
  | none => rw [hf] at h; simp at h
  | some p =>
    rw [hf] at h
    have h2 : p.2 = w := by simpa using h
    have hp := List.mem_of_find?_eq_some hf
    have hpred : p.1 = id := by simpa using List.find?_some hf
    rw [← hpred, ← h2, Prod.mk.eta]
    exact hp

theorem find?_append_left {α : Type} {l₁ l₂ : List α} {p : α → Bool} {x : α}
    (h : l₁.find? p = some x) : (l₁ ++ l₂).find? p = some x := by
  induction l₁ with
  | nil => simp at h
  | cons a l ih =>
    by_cases ha : p a
    · rw [List.find?_cons_of_pos _ ha] at h
      simpa [List.find?_cons_of_pos _ ha] using h
    · rw [List.find?_cons_of_neg _ (by simpa using ha)] at h
      simpa [List.find?_cons_of_neg _ (by simpa using ha)] using ih h

theorem find?_map_set {ws : List (ℕ × WorkflowState)} {id : ℕ} {x : WorkflowState}
    (h : (ws.find? (fun p => decide (p.1 = id))).isSome) :
    (ws.map (fun p => if p.1 = id then (id, x) else p)).find?
      (fun p => decide (p.1 = id)) = some (id, x) := by
  induction ws with
  | nil => simp at h
  | cons q ws ih =>
    by_cases hq : q.1 = id
    · simp [hq, List.find?_cons_of_pos]
    · rw [List.find?_cons_of_neg _ (by simp [hq])] at h
      simp only [List.map_cons, if_neg hq]
      rw [List.find?_cons_of_neg _ (by simp [hq])]
      exact ih h

theorem find?_map_set_ne {ws : List (ℕ × WorkflowState)} {pid id : ℕ}
    {x : WorkflowState} (hne : id ≠ pid) :
    (ws.map (fun p => if p.1 = pid then (pid, x) else p)).find?
      (fun p => decide (p.1 = id)) = ws.find? (fun p => decide (p.1 = id)) := by
  induction ws with
  | nil => simp
  | cons q ws ih =>
    simp only [List.map_cons]
    by_cases hq : q.1 = pid
    · have hqid : ¬ q.1 = id := by rw [hq]; exact fun e => hne e.symm
      rw [if_pos hq]
      rw [List.find?_cons_of_neg _ (by simpa using fun e => hne e.symm),
        List.find?_cons_of_neg _ (by simpa using hqid)]
      exact ih
    · rw [if_neg hq]
      by_cases hqi : q.1 = id
      · rw [List.find?_cons_of_pos _ (by simpa using hqi),
          List.find?_cons_of_pos _ (by simpa using hqi)]
      · rw [List.find?_cons_of_neg _ (by simpa using hqi),
          List.find?_cons_of_neg _ (by simpa using hqi)]
        exact ih

theorem find?_filter_none {ws : List (ℕ × WorkflowState)} {pid : ℕ} :
    (ws.filter (fun p => decide (p.1 ≠ pid))).find?
      (fun p => decide (p.1 = pid)) = none := by
  induction ws with
  | nil => simp
  | cons q ws ih =>
    rw [List.filter_cons]
    by_cases hq : q.1 = pid
    · rw [if_neg (by simpa using hq)]
      exact ih
    · rw [if_pos (by simpa using hq),
        List.find?_cons_of_neg _ (by simpa using hq)]
      exact ih

theorem find?_filter_ne {ws : List (ℕ × WorkflowState)} {pid id : ℕ}
    (hne : id ≠ pid) :
    (ws.filter (fun p => decide (p.1 ≠ pid))).find?
      (fun p => decide (p.1 = id)) = ws.find? (fun p => decide (p.1 = id)) := by
  induction ws with
  | nil => simp
  | cons q ws ih =>
    rw [List.filter_cons]
    by_cases hq : q.1 = pid
    · have hqid : ¬ q.1 = id := by rw [hq]; exact fun e => hne e.symm
      rw [if_neg (by simpa using hq),
        List.find?_cons_of_neg _ (by simpa using hqid)]
      exact ih
    · rw [if_pos (by simpa using hq)]
      by_cases hqi : q.1 = id
      · rw [List.find?_cons_of_pos _ (by simpa using hqi),
          List.find?_cons_of_pos _ (by simpa using hqi)]
      · rw [List.find?_cons_of_neg _ (by simpa using hqi),
          List.find?_cons_of_neg _ (by simpa using hqi)]
        exact ih

/-! ## Helper lemmas: orchestrator invariant and per-operation step -/

/-- Every workflow in the orchestrator map has an already-allocated id
and satisfies the per-workflow invariant. -/
def OrchInv (o : OrchestratorState) : Prop :=
  ∀ p ∈ o.workflows, p.1 < o.nextId ∧ WfInv p.2

theorem addWorkflowLog_inv (stage : WorkflowStage) (agent action details : String)
    (duration : ℤ) (w : WorkflowState) (h : WfInv w) :
    WfInv (addWorkflowLog stage agent action details duration w) := by
  obtain ⟨i1, i2, i3⟩ := h
  exact ⟨i1, i2, i3⟩

theorem applyOp_inv (o : OrchestratorState) (op : Op) (h : OrchInv o) :
    OrchInv (applyOp o op) := by
  cases op with
  | start caseId =>
    intro p hp
    simp only [applyOp] at hp ⊢
    rcases List.mem_append.mp hp with hp | hp
    · exact ⟨Nat.lt_succ_of_lt (h p hp).1, (h p hp).2⟩
    · obtain rfl := List.mem_singleton.mp hp
      exact ⟨Nat.lt_succ_self _, initialWorkflowState_inv caseId⟩
  | process pid oc =>
    cases hl : lookupWorkflow o pid with
    | none => intro p hp; simp only [applyOp, hl] at hp ⊢; exact h p hp
    | some v =>
      intro p hp
      simp only [applyOp, hl, setWorkflow] at hp ⊢
      obtain ⟨q, hq, hfq⟩ := List.mem_map.mp hp
      by_cases hqid : q.1 = pid
      · rw [if_pos hqid] at hfq
        subst hfq
        refine ⟨?_, ?_⟩
        · have := (h q hq).1
          rw [hqid] at this
          exact this
        · exact processWorkflow_inv oc v
            (h (pid, v) (lookupWorkflow_mem hl)).2
      · rw [if_neg hqid] at hfq
        subst hfq
        exact h q hq
  | pause pid =>
    cases hl : lookupWorkflow o pid with
    | none => intro p hp; simp only [applyOp, hl] at hp ⊢; exact h p hp
    | some v =>
      intro p hp
      simp only [applyOp, hl, setWorkflow] at hp ⊢
      obtain ⟨q, hq, hfq⟩ := List.mem_map.mp hp
      by_cases hqid : q.1 = pid
      · rw [if_pos hqid] at hfq
        subst hfq
        refine ⟨?_, ?_⟩
        · have := (h q hq).1
          rw [hqid] at this
          exact this
        · exact addWorkflowLog_inv _ _ _ _ _ _
            (h (pid, v) (lookupWorkflow_mem hl)).2
      · rw [if_neg hqid] at hfq
        subst hfq
        exact h q hq
  | cancel pid =>
    cases hl : lookupWorkflow o pid with
    | none => intro p hp; simp only [applyOp, hl] at hp ⊢; exact h p hp
    | some v =>
      intro p hp
      simp only [applyOp, hl] at hp ⊢
      exact h p (List.mem_of_mem_filter hp)

theorem runOps_inv (ops : List Op) : OrchInv (runOps ops) := by
  have main : ∀ (l : List Op) (o : OrchestratorState),
      OrchInv o → OrchInv (l.foldl applyOp o) := by
    intro l
    induction l with
    | nil => intro o h; exact h
    | cons op l ih => intro o h; exact ih _ (applyOp_inv o op h)
  exact main ops initialOrchestrator (by intro p hp; simp [initialOrchestrator] at hp)

theorem applyOp_step (o : OrchestratorState) (op : Op) (id : ℕ)
    (w w' : WorkflowState) (hinv : OrchInv o)
    (hw : lookupWorkflow o id = some w)
    (hw' : lookupWorkflow (applyOp o op) id = some w') :
    w.progress ≤ w'.progress ∧ w.completedStages <+: w'.completedStages := by
  have hwfi : WfInv w := (hinv (id, w) (lookupWorkflow_mem hw)).2
  cases op with
  | start caseId =>
    have hsome : (o.workflows.find? (fun p => decide (p.1 = id))).isSome := by
      unfold lookupWorkflow at hw
      cases hf : o.workflows.find? (fun p => decide (p.1 = id)) with
      | none => rw [hf] at hw; simp at hw
      | some p => simp [hf]
    obtain ⟨p, hp⟩ := Option.isSome_iff_exists.mp hsome
    have : lookupWorkflow (applyOp o (.start caseId)) id = some w := by
      unfold lookupWorkflow applyOp
      simp only
      rw [find?_append_left hp]
      unfold lookupWorkflow at hw
      rw [hp] at hw
      simpa using hw
    rw [this] at hw'
    obtain rfl := Option.some.inj hw'
    exact ⟨le_refl _, List.prefix_refl _⟩
  | process pid oc =>
    cases hl : lookupWorkflow o pid with
    | none =>
      rw [show applyOp o (.process pid oc) = o by simp [applyOp, hl]] at hw'
      rw [hw] at hw'
      obtain rfl := Option.some.inj hw'
      exact ⟨le_refl _, List.prefix_refl _⟩
    | some v =>
      by_cases hid : id = pid
      · subst hid
        rw [hl] at hw
        obtain rfl := Option.some.inj hw
        have hsome : (o.workflows.find? (fun p => decide (p.1 = id))).isSome := by
          unfold lookupWorkflow at hl
          cases hf : o.workflows.find? (fun p => decide (p.1 = id)) with
          | none => rw [hf] at hl; simp at hl
          | some p => simp [hf]
        have hlook : lookupWorkflow (applyOp o (.process id oc)) id =
            some (processWorkflow oc v).1 := by
          unfold lookupWorkflow applyOp
          simp only [hl, setWorkflow]
          rw [find?_map_set hsome]
          rfl
        rw [hlook] at hw'
        obtain rfl := Option.some.inj hw'
        exact processWorkflow_mono oc v hwfi
      · have hlook : lookupWorkflow (applyOp o (.process pid oc)) id =
            lookupWorkflow o id := by
          unfold lookupWorkflow applyOp
          simp only [hl, setWorkflow]
          rw [find?_map_set_ne hid]
        rw [hlook, hw] at hw'
        obtain rfl := Option.some.inj hw'
        exact ⟨le_refl _, List.prefix_refl _⟩
  | pause pid =>
    cases hl : lookupWorkflow o pid with
    | none =>
      rw [show applyOp o (.pause pid) = o by simp [applyOp, hl]] at hw'
      rw [hw] at hw'
      obtain rfl := Option.some.inj hw'
      exact ⟨le_refl _, List.prefix_refl _⟩
    | some v =>
      by_cases hid : id = pid
      · subst hid
        rw [hl] at hw
        obtain rfl := Option.some.inj hw
        have hsome : (o.workflows.find? (fun p => decide (p.1 = id))).isSome := by
          unfold lookupWorkflow at hl
          cases hf : o.workflows.find? (fun p => decide (p.1 = id)) with
          | none => rw [hf] at hl; simp at hl
          | some p => simp [hf]
        have hlook : lookupWorkflow (applyOp o (.pause id)) id =
            some (addWorkflowLog v.currentStage "workflow-orchestrator" "paused"
              "Workflow paused by user" 0 v) := by
          unfold lookupWorkflow applyOp
          simp only [hl, setWorkflow]
          rw [find?_map_set hsome]
          rfl
        rw [hlook] at hw'
        obtain rfl := Option.some.inj hw'
        exact ⟨le_refl _, List.prefix_refl _⟩
      · have hlook : lookupWorkflow (applyOp o (.pause pid)) id =
            lookupWorkflow o id := by
          unfold lookupWorkflow applyOp
          simp only [hl, setWorkflow]
          rw [find?_map_set_ne hid]
        rw [hlook, hw] at hw'
        obtain rfl := Option.some.inj hw'
        exact ⟨le_refl _, List.prefix_refl _⟩
  | cancel pid =>
    cases hl : lookupWorkflow o pid with
    | none =>
      rw [show applyOp o (.cancel pid) = o by simp [applyOp, hl]] at hw'
      rw [hw] at hw'
      obtain rfl := Option.some.inj hw'
      exact ⟨le_refl _, List.prefix_refl _⟩
    | some v =>
      by_cases hid : id = pid
      · subst hid
        have : lookupWorkflow (applyOp o (.cancel id)) id = none := by
          unfold lookupWorkflow applyOp
          simp only [hl]
          rw [find?_filter_none]
          rfl
        rw [this] at hw'
        exact absurd hw' (by simp)
      · have hlook : lookupWorkflow (applyOp o (.cancel pid)) id =
            lookupWorkflow o id := by
          unfold lookupWorkflow applyOp
          simp only [hl]
          rw [find?_filter_ne hid]
        rw [hlook, hw] at hw'
        obtain rfl := Option.some.inj hw'
        exact ⟨le_refl _, List.prefix_refl _⟩

/-! ## Claim C1 -/

/-- C1 counterexample: for the concrete workflow whose intake stage
succeeds and whose research stage's agent call throws, the workflow's
error log has TWO entries for stage `legal-research` (the stage-level
`high` entry and the orchestrator-level `critical` entry recorded by the
outer catch, whose `currentStage` is the failed stage), not exactly one
as the claim states. -/
theorem claimC1_counterexample :
    (lookupWorkflow
        (runOps [.start "case-1",
          .process 0 (fun s => if s = .legalResearch then
            .error "retrieval failed" else .ok ())]) 0).map
      (fun w => w.errors.countP (fun e => decide (e.stage = .legalResearch))) =
      some 2 ∧ (2 : ℕ) ≠ 1 := by
  constructor
  · with_unfolding_all rfl
  · decide

/-- C1 (amended): for every workflow started fresh whose first
`processWorkflow` call has a succeeding intake stage and a throwing
research stage, the error log has exactly two entries whose stage is
`legal-research` — one `high` from the stage handler and one `critical`
from the workflow handler — and the workflow does not reach `completed`:
its `currentStage` stays `legal-research`, `progress` is 17 (never 100),
and no `workflow-completed` event is emitted. -/
theorem claimC1_theorem (caseId m : String)
    (oc : WorkflowStage → Except String Unit)
    (h1 : oc .plaintiffIntake = .ok ())
    (h2 : oc .legalResearch = .error m) :
    ∃ w, lookupWorkflow (runOps [.start caseId, .process 0 oc]) 0 = some w ∧
      w.errors.countP (fun e => decide (e.stage = .legalResearch)) = 2 ∧
      w.errors.countP (fun e =>
        decide (e.stage = .legalResearch ∧ e.severity = .high)) = 1 ∧
      w.errors.countP (fun e =>
        decide (e.stage = .legalResearch ∧ e.severity = .critical)) = 1 ∧
      w.currentStage = .legalResearch ∧
      w.currentStage ≠ .completed ∧
      w.progress = 17 ∧
      w.progress ≠ 100 ∧
      ∀ p ∈ (runOps [.start caseId, .process 0 oc]).events,
        p.2 ≠ Event.workflowCompleted := by
  refine ⟨_, rfl, ?_, ?_, ?_, ?_, ?_, ?_, ?_, ?_⟩ <;>
    simp only [runOps, applyOp, lookupWorkflow, setWorkflow, initialOrchestrator,
      processWorkflow, runStages, getWorkflowStages, getAgentNameForStage,
      initialWorkflowState, addWorkflowLog, addWorkflowError,
      updateWorkflowProgress_def, h1, h2, List.foldl, List.find?,
      List.countP, List.countP.go, List.mem_cons, List.mem_singleton] <;>
    first
      | rfl
      | with_unfolding_all rfl
      | exact of_decide_eq_true (by with_unfolding_all rfl)

/-- C1 witness: the amended theorem instantiated at a concrete outcome
function whose research stage throws. -/
theorem claimC1_witness :
    ∃ w, lookupWorkflow
        (runOps [.start "case-1",
          .process 0 (fun s => if s = .legalResearch then
            .error "retrieval failed" else .ok ())]) 0 = some w ∧
      w.errors.countP (fun e => decide (e.stage = .legalResearch)) = 2 ∧
      w.errors.countP (fun e =>
        decide (e.stage = .legalResearch ∧ e.severity = .high)) = 1 ∧
      w.errors.countP (fun e =>
        decide (e.stage = .legalResearch ∧ e.severity = .critical)) = 1 ∧
      w.currentStage = .legalResearch ∧
      w.currentStage ≠ .completed ∧
      w.progress = 17 ∧
      w.progress ≠ 100 ∧
      ∀ p ∈ (runOps [.start "case-1",
          .process 0 (fun s => if s = .legalResearch then
            .error "retrieval failed" else .ok ())]).events,
        p.2 ≠ Event.workflowCompleted :=
  claimC1_theorem "case-1" "retrieval failed" _ (by with_unfolding_all rfl)
    (by with_unfolding_all rfl)

/-! ## Claim C4 -/

/-- C4: for every workflow, across any lifetime of orchestrator
operations, the `progress` field never decreases; whenever the current
stage is a pipeline stage its progress equals
`round(100 × stageIndex / 6)` (the value `stageProgressAt` of its
index), and at `completed` the progress is 100. -/
theorem claimC4_theorem :
    (∀ (ops : List Op) (op : Op) (id : ℕ) (w w' : WorkflowState),
      lookupWorkflow (runOps ops) id = some w →
      lookupWorkflow (runOps (ops ++ [op])) id = some w' →
      w.progress ≤ w'.progress) ∧
    (∀ (ops : List Op) (id : ℕ) (w : WorkflowState),
      lookupWorkflow (runOps ops) id = some w →
      (w.currentStage ≠ .completed →
        w.progress =
          stageProgressAt (stageIndexOf getWorkflowStages w.currentStage)) ∧
      (w.currentStage = .completed → w.progress = 100)) := by
  constructor
  · intro ops op id w w' hw hw'
    have hr : runOps (ops ++ [op]) = applyOp (runOps ops) op := by
      simp [runOps, List.foldl_append]
    rw [hr] at hw'
    exact (applyOp_step (runOps ops) op id w w' (runOps_inv ops) hw hw').1
  · intro ops id w hw
    obtain ⟨_, hcomp, hrun⟩ := (runOps_inv ops (id, w) (lookupWorkflow_mem hw)).2
    exact ⟨fun hc => (hrun hc).2.1, fun hc => (hcomp hc).1⟩

/-- C4 witness: the theorem instantiated at a freshly started workflow
driven to completion by one `processWorkflow` call. -/
theorem claimC4_witness :
    (initialWorkflowState "case-4").progress ≤
      (processWorkflow (fun _ => .ok ()) (initialWorkflowState "case-4")).1.progress ∧
    (initialWorkflowState "case-4").progress =
      stageProgressAt (stageIndexOf getWorkflowStages
        (initialWorkflowState "case-4").currentStage) :=
  ⟨claimC4_theorem.1 [.start "case-4"] (.process 0 (fun _ => .ok ())) 0 _ _
      (by with_unfolding_all rfl) (by with_unfolding_all rfl),
   (claimC4_theorem.2 [.start "case-4"] 0 _ (by with_unfolding_all rfl)).1
      (by decide)⟩

/-! ## Claim C8 -/

/-- C8: for every workflow state reachable by any sequence of
orchestrator operations, `completedStages` contains no duplicates, and
each further operation only appends to it (the old list is a prefix of
the new one, so an element once present is never removed and order is
preserved). -/
theorem claimC8_theorem :
    (∀ (ops : List Op) (id : ℕ) (w : WorkflowState),
      lookupWorkflow (runOps ops) id = some w → w.completedStages.Nodup) ∧
    (∀ (ops : List Op) (op : Op) (id : ℕ) (w w' : WorkflowState),
      lookupWorkflow (runOps ops) id = some w →
      lookupWorkflow (runOps (ops ++ [op])) id = some w' →
      w.completedStages <+: w'.completedStages) := by
  constructor
  · intro ops id w hw
    exact ((runOps_inv ops (id, w) (lookupWorkflow_mem hw)).2).1
  · intro ops op id w w' hw hw'
    have hr : runOps (ops ++ [op]) = applyOp (runOps ops) op := by
      simp [runOps, List.foldl_append]
    rw [hr] at hw'
    exact (applyOp_step (runOps ops) op id w w' (runOps_inv ops) hw hw').2

/-- C8 witness: the theorem instantiated at a freshly started workflow
and one full `processWorkflow` call. -/
theorem claimC8_witness :
    (initialWorkflowState "case-8").completedStages.Nodup ∧
    (initialWorkflowState "case-8").completedStages <+:
      (processWorkflow (fun _ => .ok ())
        (initialWorkflowState "case-8")).1.completedStages :=
  ⟨claimC8_theorem.1 [.start "case-8"] 0 _ (by with_unfolding_all rfl),
   claimC8_theorem.2 [.start "case-8"] (.process 0 (fun _ => .ok ())) 0 _ _
      (by with_unfolding_all rfl) (by with_unfolding_all rfl)⟩

end WorkflowOrchestrator

/-- A concrete legal case used to instantiate witnesses and
counterexamples (the mock case of the repository's orchestrator test,
trimmed to the modelled fields). -/
def sampleCase : LegalCase :=
  { id := "test-case-1"
    plaintiffInfo :=
      { name := "John Doe"
        legalIssue := "Breach of contract"
        description := "Software development contract was not fulfilled."
        desiredOutcome := "Monetary damages"
        urgency := .medium }
    caseDetails :=
      { title := "Doe v. TechCorp"
        category := .contractDispute
        jurisdiction := "New York State"
        estimatedDuration := 90
        complexity := .medium
        precedents := []
        relevantLaws := [] }
    status := .intake
    workflowStage := .plaintiffIntake
    documents := [] }

namespace BaseAgent

/-! ## Claim C3 -/

/-- C3 counterexample: after a `process()` call whose task throws, the
agent is NOT back in an available state — the in-flight flag is
released but the status is left at `error`, so `isAvailable()` returns
`false`, contradicting the claim's "available afterward regardless of
outcome". -/
theorem claimC3_counterexample :
    isAvailable
      (process (.error "task failed") 1 "test-case-1"
        (initialAgent "Legal Research Agent")).1 = false ∧
    (process (.error "task failed") 1 "test-case-1"
      (initialAgent "Legal Research Agent")).1.status = .error ∧
    (process (.error "task failed") 1 "test-case-1"
      (initialAgent "Legal Research Agent")).1.isProcessing = false := by
  refine ⟨?_, ?_, ?_⟩ <;> with_unfolding_all rfl

/-- C3 (amended): a second `process()` call while one is in flight is
rejected with the agent-busy error and leaves the state untouched;
after a successful call the agent is available again (`idle`, flag
released); after a failed call the in-flight flag is released but the
status is left at `error`, so `isAvailable()` returns `false`. -/
theorem claimC3_theorem (a : AgentState) (task : Except String LegalCase)
    (processingTime : ℚ) (caseId : String) :
    (a.isProcessing = true →
      process task processingTime caseId a = (a, .error (busyMessage a.name))) ∧
    (a.isProcessing = false → ∀ c, task = .ok c →
      isAvailable (process task processingTime caseId a).1 = true) ∧
    (a.isProcessing = false → ∀ m, task = .error m →
      (process task processingTime caseId a).1.status = .error ∧
      (process task processingTime caseId a).1.isProcessing = false ∧
      isAvailable (process task processingTime caseId a).1 = false) := by
  refine ⟨?_, ?_, ?_⟩
  · intro hbusy
    simp [process, hbusy]
  · intro hfree c hc
    subst hc
    simp [process, hfree, finallyBlock, updateMetrics, isAvailable]
  · intro hfree m hm
    subst hm
    refine ⟨?_, ?_, ?_⟩ <;> simp [process, hfree, finallyBlock, isAvailable]

/-- C3 witness: the amended theorem instantiated on a busy agent, a
fresh agent with a succeeding task, and a fresh agent with a failing
task. -/
theorem claimC3_witness :
    (process (.ok sampleCase) 1 "test-case-1"
        { initialAgent "Legal Intake Agent" with isProcessing := true }
      = ({ initialAgent "Legal Intake Agent" with isProcessing := true },
          .error (busyMessage "Legal Intake Agent"))) ∧
    isAvailable (process (.ok sampleCase) 1 "test-case-1"
      (initialAgent "Legal Intake Agent")).1 = true ∧
    isAvailable (process (.error "boom") 1 "test-case-1"
      (initialAgent "Legal Intake Agent")).1 = false :=
  ⟨(claimC3_theorem { initialAgent "Legal Intake Agent" with isProcessing := true }
      (.ok sampleCase) 1 "test-case-1").1 rfl,
   (claimC3_theorem (initialAgent "Legal Intake Agent")
      (.ok sampleCase) 1 "test-case-1").2.1 rfl sampleCase rfl,
   ((claimC3_theorem (initialAgent "Legal Intake Agent")
      (.error "boom") 1 "test-case-1").2.2 rfl "boom" rfl).2.2⟩

end BaseAgent

/-- A case record with prescribed category, complexity and urgency and
all other fields fixed; used to reduce properties of
`determineDocumentsNeeded` to its three decision inputs. -/
def mkCase (cat : LegalCategory) (comp : Complexity) (urg : Urgency) :
    LegalCase :=
  { sampleCase with
      caseDetails :=
        { sampleCase.caseDetails with category := cat, complexity := comp }
      plaintiffInfo := { sampleCase.plaintiffInfo with urgency := urg } }

namespace DocumentAgent

/-! ## Claim C7 -/

/-- C7: `determineDocumentsNeeded` is a pure function of
(category, complexity, urgency); on (contract-dispute, medium, medium)
it yields exactly [complaint, motion, legal-memo]; on
(personal-injury, high, critical) it yields exactly
[motion, complaint, discovery-request, evidence-summary, brief]; and
for every input the result is duplicate-free (the first-seen-order
deduplication of the built list). -/
theorem claimC7_theorem :
    (∀ c₁ c₂ : LegalCase,
      c₁.caseDetails.category = c₂.caseDetails.category →
      c₁.caseDetails.complexity = c₂.caseDetails.complexity →
      c₁.plaintiffInfo.urgency = c₂.plaintiffInfo.urgency →
      determineDocumentsNeeded c₁ = determineDocumentsNeeded c₂) ∧
    determineDocumentsNeeded (mkCase .contractDispute .medium .medium) =
      [.complaint, .motion, .legalMemo] ∧
    determineDocumentsNeeded (mkCase .personalInjury .high .critical) =
      [.motion, .complaint, .discoveryRequest, .evidenceSummary, .brief] ∧
    (∀ c : LegalCase, (determineDocumentsNeeded c).Nodup) := by
  have purity : ∀ c₁ c₂ : LegalCase,
      c₁.caseDetails.category = c₂.caseDetails.category →
      c₁.caseDetails.complexity = c₂.caseDetails.complexity →
      c₁.plaintiffInfo.urgency = c₂.plaintiffInfo.urgency →
      determineDocumentsNeeded c₁ = determineDocumentsNeeded c₂ := by
    intro c₁ c₂ h1 h2 h3
    unfold determineDocumentsNeeded
    rw [h1, h2, h3]
  have nodupAll : ∀ (cat : LegalCategory) (comp : Complexity) (urg : Urgency),
      (determineDocumentsNeeded (mkCase cat comp urg)).Nodup := by decide
  refine ⟨purity, by decide, by decide, ?_⟩
  intro c
  rw [purity c (mkCase c.caseDetails.category c.caseDetails.complexity
    c.plaintiffInfo.urgency) rfl rfl rfl]
  exact nodupAll _ _ _

/-- C7 witness: the purity component applied to two distinct case
records sharing the decision triple, and the duplicate-freeness
component at a concrete case. -/
theorem claimC7_witness :
    determineDocumentsNeeded sampleCase =
      determineDocumentsNeeded { sampleCase with id := "test-case-2" } ∧
    (determineDocumentsNeeded sampleCase).Nodup :=
  ⟨claimC7_theorem.1 sampleCase { sampleCase with id := "test-case-2" }
      rfl rfl rfl,
   claimC7_theorem.2.2.2 sampleCase⟩

end DocumentAgent

namespace RAGService

/-! ## Claim C10 -/

/-- C10: the deterministic fallback embedder is a pure function of its
input text — its output depends on the text only through `simpleHash`,
so identical input text (indeed, any two texts with equal hash) yields
identical embedding vectors — and the vector always has the fixed
dimension 1536.  (`sin` is `Math.sin`, itself a pure function of its
argument; the theorem holds for every such function.) -/
theorem claimC10_theorem (sin : ℚ → ℚ) (t₁ t₂ : String)
    (h : simpleHash t₁ = simpleHash t₂) :
    getMockEmbedding sin t₁ = getMockEmbedding sin t₂ ∧
    (getMockEmbedding sin t₁).length = 1536 := by
  constructor
  · unfold getMockEmbedding
    rw [h]
  · unfold getMockEmbedding
    rw [List.length_map, List.length_range]
    rfl

/-- C10 witness: two distinct texts with equal `simpleHash` (a genuine
collision of the 31-based string hash) receive identical embeddings of
dimension 1536. -/
theorem claimC10_witness :
    simpleHash "Aa" = simpleHash "BB" ∧
    (getMockEmbedding id "Aa" = getMockEmbedding id "BB" ∧
      (getMockEmbedding id "Aa").length = 1536) :=
  ⟨by decide, claimC10_theorem id "Aa" "BB" (by decide)⟩

end RAGService

/-- A concrete retrieved case-law document for witnesses. -/
def sampleRetrieved : RAGService.RetrievedDocument :=
  { id := "smith-v-jones"
    title := "Smith v. Jones"
    content := "A precedent on breach of software development contracts."
    source := "reference-corpus"
    relevanceScore := 9 / 10
    mtype := "case-law"
    jurisdiction := "New York State"
    mdate := 0 }

/-! ## Claim C2 -/

/-- C2 counterexample: when the generation service fails for every
document of the drafting task, `DocumentAgent.executeTask` does NOT
propagate the failure — it resolves successfully with no documents
added and the stage advanced — so a generation failure during document
drafting is swallowed, not fatal, contradicting the claim. -/
theorem claimC2_counterexample :
    DocumentAgent.executeTask (fun _ _ => .error "Gemini API error: 503")
      (fun _ => .ok ()) sampleCase =
      .ok { sampleCase with workflowStage := .reviewAndRevision } := by
  with_unfolding_all rfl

/-- C2 (amended): a failure of the generation service while producing a
required document's content is caught inside the drafting task's
per-document-type try/catch: that type is skipped and `executeTask`
always resolves with a case (it never rejects); and, as the claim also
states, AI-augmentation parse failures in the intake and research
agents are recovered locally — the intake enhancement returns the
already-validated original plaintiff info, and the research precedent
extraction degrades to the first five raw case-law titles — and never
bubble. -/
theorem claimC2_theorem :
    (∀ (genContent : DocumentType → DocumentFormat → Except String String)
       (render : DocumentFormat → Except String Unit) (c : LegalCase),
      ∃ c', DocumentAgent.executeTask genContent render c = .ok c') ∧
    (∀ (e : String) (parse : String → Option IntakeAgent.IntakeAnalysis)
       (p : PlaintiffInfo),
      IntakeAgent.enhancePlaintiffInfo (.error e) parse p = p) ∧
    (∀ (content : String) (parse : String → Option IntakeAgent.IntakeAnalysis)
       (p : PlaintiffInfo), parse content = none →
      IntakeAgent.enhancePlaintiffInfo (.ok content) parse p = p) ∧
    (∀ (e : String)
       (parse : String → Option (List ResearchAgent.PrecedentEntry))
       (documents : List RAGService.RetrievedDocument),
      ResearchAgent.identifyKeyPrecedents (.error e) parse documents =
        (((documents.filter (fun d => decide (d.mtype = "case-law"))).take 15).take 5).map
          (·.title)) ∧
    (∀ (content : String)
       (parse : String → Option (List ResearchAgent.PrecedentEntry))
       (documents : List RAGService.RetrievedDocument), parse content = none →
      ResearchAgent.identifyKeyPrecedents (.ok content) parse documents =
        (((documents.filter (fun d => decide (d.mtype = "case-law"))).take 15).take 5).map
          (·.title)) := by
  refine ⟨?_, ?_, ?_, ?_, ?_⟩
  · intro genContent render c
    exact ⟨_, rfl⟩
  · intro e parse p
    rfl
  · intro content parse p hp
    simp [IntakeAgent.enhancePlaintiffInfo, hp]
  · intro e parse documents
    simp only [ResearchAgent.identifyKeyPrecedents]
    by_cases h : ((documents.filter
        (fun d => decide (d.mtype = "case-law"))).take 15).length = 0
    · rw [if_pos h]
      rw [List.length_eq_zero] at h
      rw [h]
      simp
    · rw [if_neg h]
  · intro content parse documents hp
    simp only [ResearchAgent.identifyKeyPrecedents, hp]
    by_cases h : ((documents.filter
        (fun d => decide (d.mtype = "case-law"))).take 15).length = 0
    · rw [if_pos h]
      rw [List.length_eq_zero] at h
      rw [h]
      simp
    · rw [if_neg h]

/-- C2 witness: the amended theorem instantiated at a failing generation
service, an unparseable model reply, and a concrete retrieved corpus. -/
theorem claimC2_witness :
    (DocumentAgent.executeTask (fun _ _ => .error "Gemini API error: 503")
      (fun _ => .ok ()) sampleCase).isOk = true ∧
    IntakeAgent.enhancePlaintiffInfo (.error "Gemini API error: 503")
      (fun _ => none) sampleCase.plaintiffInfo = sampleCase.plaintiffInfo ∧
    IntakeAgent.enhancePlaintiffInfo (.ok "not json")
      (fun _ => none) sampleCase.plaintiffInfo = sampleCase.plaintiffInfo ∧
    ResearchAgent.identifyKeyPrecedents (.error "Gemini API error: 503")
      (fun _ => none) [sampleRetrieved] =
      ((([sampleRetrieved].filter
        (fun d => decide (d.mtype = "case-law"))).take 15).take 5).map
        (·.title) ∧
    ResearchAgent.identifyKeyPrecedents (.ok "not json")
      (fun _ => none) [sampleRetrieved] =
      ((([sampleRetrieved].filter
        (fun d => decide (d.mtype = "case-law"))).take 15).take 5).map
        (·.title) := by
  obtain ⟨h1, h2, h3, h4, h5⟩ := claimC2_theorem
  obtain ⟨c', hc⟩ := h1 (fun _ _ => .error "Gemini API error: 503")
    (fun _ => .ok ()) sampleCase
  exact ⟨by rw [hc]; rfl,
    h2 "Gemini API error: 503" (fun _ => none) sampleCase.plaintiffInfo,
    h3 "not json" (fun _ => none) sampleCase.plaintiffInfo rfl,
    h4 "Gemini API error: 503" (fun _ => none) [sampleRetrieved],
    h5 "not json" (fun _ => none) [sampleRetrieved] rfl⟩

namespace RAGService

/-! ## Helper lemmas: the query pipeline -/

theorem jsOrNat_pos (x : Option ℕ) : 1 ≤ jsOrNat x 10 := by
  cases x with
  | none => decide
  | some n =>
    simp only [jsOrNat]
    split
    · decide
    · omega

theorem jsOrRat_le_one (t : Option ℚ) (h : ∀ θ, t = some θ → θ ≤ 1) :
    jsOrRat t (7 / 10) ≤ 1 := by
  cases t with
  | none => norm_num [jsOrRat]
  | some θ =>
    simp only [jsOrRat]
    split
    · norm_num
    · exact h θ rfl

theorem le_jsOrRat (θ : ℚ) : θ ≤ jsOrRat (some θ) (7 / 10) := by
  by_cases h : θ = 0
  · subst h
    norm_num [jsOrRat]
  · simp [jsOrRat, h]

theorem applyFilters_nil (filters : Option RAGFilters) :
    applyFilters [] filters = [] := by
  cases filters <;> rfl

theorem applyFilters_mem (results : List (RagDoc × ℚ))
    (filters : Option RAGFilters) :
    ∀ x ∈ applyFilters results filters, x ∈ results := by
  intro x hx
  cases filters with
  | none => simpa [applyFilters] using hx
  | some f => exact List.mem_of_mem_filter hx

theorem applyFilters_length_le (results : List (RagDoc × ℚ))
    (filters : Option RAGFilters) :
    (applyFilters results filters).length ≤ results.length := by
  cases filters with
  | none => exact le_refl _
  | some f => exact List.length_filter_le _ _

theorem searchSimilar_mem_ge (knn : List (List ℚ) → List ℚ → ℕ → Except String (List (ℕ × ℚ)))
    (s : RAGState) (qv : List ℚ) (k : ℕ) (θ : ℚ) (out : List (RagDoc × ℚ))
    (h : searchSimilar knn s qv k θ = .ok out) :
    ∀ x ∈ out, θ ≤ x.2 := by
  intro x hx
  unfold searchSimilar at h
  by_cases hd : s.documents.length = 0
  · rw [if_pos hd] at h
    obtain rfl : ([] : List (RagDoc × ℚ)) = out := by simpa using h
    simp at hx
  · rw [if_neg hd] at h
    cases hknn : knn s.vectors qv k with
    | error e => rw [hknn] at h; simp at h
    | ok nbrs =>
      rw [hknn] at h
      obtain rfl : _ = out := by simpa using h
      obtain ⟨p, hp, hfx⟩ := List.mem_filterMap.mp hx
      cases hget : s.documents[p.1]? with
      | none => rw [hget] at hfx; simp at hfx
      | some document =>
        rw [hget] at hfx
        simp only at hfx
        by_cases hsc : (1 : ℚ) - p.2 < θ
        · rw [if_pos hsc] at hfx; simp at hfx
        · rw [if_neg hsc] at hfx
          obtain rfl : (document, 1 - p.2) = x := by simpa using hfx
          exact le_of_not_lt hsc

theorem searchSimilar_length_le (knn : List (List ℚ) → List ℚ → ℕ → Except String (List (ℕ × ℚ)))
    (s : RAGState) (qv : List ℚ) (k : ℕ) (θ : ℚ) (out : List (RagDoc × ℚ))
    (hknn : ∀ vs q n res, knn vs q n = .ok res → res.length ≤ n)
    (h : searchSimilar knn s qv k θ = .ok out) :
    out.length ≤ k := by
  unfold searchSimilar at h
  by_cases hd : s.documents.length = 0
  · rw [if_pos hd] at h
    obtain rfl : ([] : List (RagDoc × ℚ)) = out := by simpa using h
    simp [jsOrNat]
  · rw [if_neg hd] at h
    cases hk : knn s.vectors qv k with
    | error e => rw [hk] at h; simp at h
    | ok nbrs =>
      rw [hk] at h
      obtain rfl : _ = out := by simpa using h
      exact le_trans (List.length_filterMap_le _ _) (hknn _ _ _ _ hk)

theorem searchSimilar_knn_error
    (knn : List (List ℚ) → List ℚ → ℕ → Except String (List (ℕ × ℚ)))
    (s : RAGState) (qv : List ℚ) (k : ℕ) (θ : ℚ) (e : String)
    (he : knn s.vectors qv k = .error e) :
    searchSimilar knn s qv k θ = .ok [] ∨
    searchSimilar knn s qv k θ = .error e := by
  unfold searchSimilar
  by_cases hd : s.documents.length = 0
  · left
    rw [if_pos hd]
  · right
    rw [if_neg hd, he]

theorem queryBody_threshold_max
    (knn : List (List ℚ) → List ℚ → ℕ → Except String (List (ℕ × ℚ)))
    (embed : String → List ℚ) (s : RAGState) (request : RAGQueryRequest)
    (elapsed : ℤ)
    (hknn : ∀ vs q n res, knn vs q n = .ok res → res.length ≤ n) :
    (∀ d ∈ (queryBody knn embed s request elapsed).documents,
      ∀ θ, request.threshold = some θ → θ ≤ d.relevanceScore) ∧
    (queryBody knn embed s request elapsed).documents.length ≤
      jsOrNat request.maxResults 10 := by
  cases hs : searchSimilar knn s (embed request.query)
      (jsOrNat request.maxResults 10) (jsOrRat request.threshold (7 / 10)) with
  | error e =>
    simp only [queryBody, hs]
    constructor
    · intro d hd
      simp at hd
    · simp
  | ok results =>
    simp only [queryBody, hs]
    constructor
    · intro d hd θ hθ
      obtain ⟨x, hx, rfl⟩ := List.mem_map.mp hd
      have hxr : x ∈ results := applyFilters_mem _ _ x hx
      have hge := searchSimilar_mem_ge knn s _ _ _ _ hs x hxr
      calc θ ≤ jsOrRat (some θ) (7 / 10) := le_jsOrRat θ
        _ = jsOrRat request.threshold (7 / 10) := by rw [hθ]
        _ ≤ x.2 := hge
    · rw [List.length_map]
      exact le_trans (applyFilters_length_le _ _)
        (searchSimilar_length_le knn s _ _ _ _ hknn hs)

/-- A concrete reference document for the RAG witnesses and
counterexamples. -/
def sampleRagDoc : RagDoc :=
  { id := "doc-1"
    title := "Contract Law Basics"
    content := "breach of contract damages remedy"
    source := "reference-corpus"
    mtype := "case-law"
    jurisdiction := "New York State"
    mdate := 0 }

/-- The service state after ingesting `sampleRagDoc` into an empty
initialized index under the deterministic fallback embedder. -/
def oneDocState : RAGState :=
  addDocument (getMockEmbedding id)
    { isInitialized := true, documents := [], vectors := [] } sampleRagDoc

/-- The behaviour of the index's `searchKnn` on a state holding a
single point identical to the query vector: it returns that point
(label 0) at cosine distance 0, and never more than `k` results. -/
def singleKnn : List (List ℚ) → List ℚ → ℕ → Except String (List (ℕ × ℚ)) :=
  fun _ _ k => .ok (if k = 0 then [] else [(0, 0)])

theorem singleKnn_contract :
    ∀ vs q n res, singleKnn vs q n = .ok res → res.length ≤ n := by
  intro vs q n res h
  obtain rfl : _ = res := by simpa [singleKnn] using h
  cases n with
  | zero => simp
  | succ n => simp

/-! ## Claim C6 -/

/-- C6 counterexample: with one indexed document and a request asking
for `maxResults = 0`, the falsy-default `maxResults || 10` requests 10
neighbours and the query returns 1 document — more than the requested
0 — so "at most maxResults items" fails when `maxResults` is 0. -/
theorem claimC6_counterexample :
    (query singleKnn (getMockEmbedding id)
        (.ok { isInitialized := true, documents := [], vectors := [] })
        oneDocState
        { query := "breach of contract damages remedy"
          maxResults := some 0
          threshold := none
          filters := none } 0).map (fun r => r.documents.length) = .ok 1 ∧
    ¬ ((1 : ℕ) ≤ 0) := by
  constructor
  · with_unfolding_all rfl
  · decide

/-- C6 (amended): for every query whose index search returns at most
`k` labelled results (the `searchKnn` contract), the result list of
`query` contains no item whose similarity score is below the requested
threshold, and contains at most `maxResults` items whenever
`maxResults ≥ 1`; when `maxResults` is 0 or omitted the falsy default
applies, so the bound is the default 10 (`jsOrNat maxResults 10`). -/
theorem claimC6_theorem
    (knn : List (List ℚ) → List ℚ → ℕ → Except String (List (ℕ × ℚ)))
    (embed : String → List ℚ) (init : Except String RAGState) (s : RAGState)
    (request : RAGQueryRequest) (elapsed : ℤ) (r : RAGResult)
    (hknn : ∀ vs q n res, knn vs q n = .ok res → res.length ≤ n)
    (hq : query knn embed init s request elapsed = .ok r) :
    (∀ d ∈ r.documents, ∀ θ, request.threshold = some θ →
      θ ≤ d.relevanceScore) ∧
    r.documents.length ≤ jsOrNat request.maxResults 10 := by
  unfold query at hq
  cases hi : s.isInitialized with
  | true =>
    rw [hi] at hq
    simp only [if_true] at hq
    obtain rfl : _ = r := Except.ok.inj hq
    exact queryBody_threshold_max knn embed s request elapsed hknn
  | false =>
    rw [hi] at hq
    simp only [Bool.false_eq_true, if_false] at hq
    cases init with
    | error e => simp at hq
    | ok s' =>
      have hq' : Except.ok (ε := String)
          (queryBody knn embed s' request elapsed) = Except.ok r := by
        simpa using hq
      obtain rfl : _ = r := Except.ok.inj hq'
      exact queryBody_threshold_max knn embed s' request elapsed hknn

/-- A concrete request with a positive `maxResults` and an explicit
threshold, for the C6 witness. -/
def boundedRequest : RAGQueryRequest :=
  { query := "breach of contract damages remedy"
    maxResults := some 5
    threshold := some (4 / 5)
    filters := none }

/-- C6 witness: the amended theorem instantiated at the one-document
state with a positive `maxResults` and an explicit threshold. -/
theorem claimC6_witness :
    (∀ d ∈ (queryBody singleKnn (getMockEmbedding id) oneDocState
        boundedRequest 0).documents,
      ∀ θ, boundedRequest.threshold = some θ → θ ≤ d.relevanceScore) ∧
    (queryBody singleKnn (getMockEmbedding id) oneDocState
        boundedRequest 0).documents.length ≤
      jsOrNat boundedRequest.maxResults 10 :=
  claimC6_theorem singleKnn (getMockEmbedding id)
    (.ok { isInitialized := true, documents := [], vectors := [] })
    oneDocState boundedRequest 0 _ singleKnn_contract rfl

/-! ## Claim C9 -/

/-- C9 counterexample: `query` on an uninitialized service whose lazy
`initialize()` fails rejects with the initialization error — the lazy
initialization sits outside the `try` block — so "query never throws
for every request" is false on that path. -/
theorem claimC9_counterexample :
    query (fun _ _ _ => .ok []) (fun _ => [])
      (.error "ENOENT: no such file or directory")
      { isInitialized := false, documents := [], vectors := [] }
      { query := "breach of contract"
        maxResults := none
        threshold := none
        filters := none } 0 =
      .error "RAG Service initialization failed: ENOENT: no such file or directory" := by
  with_unfolding_all rfl

/-- C9 (amended): on an initialized service — or whenever the lazy
initialization succeeds — `query` never throws: it always resolves
with a result object, and when the index search fails internally the
result is the empty fallback
`{documents := [], totalResults := 0, confidence := 0}` carrying the
elapsed query time.  Only an uninitialized service whose initialization
fails makes `query` reject. -/
theorem claimC9_theorem
    (knn : List (List ℚ) → List ℚ → ℕ → Except String (List (ℕ × ℚ)))
    (embed : String → List ℚ) (init : Except String RAGState) (s : RAGState)
    (request : RAGQueryRequest) (elapsed : ℤ) :
    (s.isInitialized = true →
      (query knn embed init s request elapsed).isOk = true) ∧
    (∀ s', init = .ok s' →
      (query knn embed init s request elapsed).isOk = true) ∧
    (s.isInitialized = true →
      ∀ e, knn s.vectors (embed request.query)
          (jsOrNat request.maxResults 10) = .error e →
      query knn embed init s request elapsed =
        .ok { documents := [], totalResults := 0, queryTime := elapsed,
              confidence := 0 }) := by
  refine ⟨?_, ?_, ?_⟩
  · intro hi
    simp [query, hi, Except.isOk, Except.toBool]
  · intro s' hs'
    cases hi : s.isInitialized with
    | true => simp [query, hi, Except.isOk, Except.toBool]
    | false => simp [query, hi, hs', Except.isOk, Except.toBool]
  · intro hi e he
    rcases searchSimilar_knn_error knn s (embed request.query)
        (jsOrNat request.maxResults 10) (jsOrRat request.threshold (7 / 10))
        e he with hcase | hcase <;>
      simp [query, hi, queryBody, hcase, applyFilters_nil]

/-- C9 witness: the amended theorem instantiated on the initialized
one-document state with an index search that throws. -/
theorem claimC9_witness :
    (query (fun _ _ _ => .error "knn query failed")
      (getMockEmbedding id) (.ok oneDocState) oneDocState
      { query := "breach of contract"
        maxResults := none
        threshold := none
        filters := none } 0).isOk = true ∧
    query (fun _ _ _ => .error "knn query failed")
      (getMockEmbedding id) (.ok oneDocState) oneDocState
      { query := "breach of contract"
        maxResults := none
        threshold := none
        filters := none } 0 =
      .ok { documents := [], totalResults := 0, queryTime := 0,
            confidence := 0 } :=
  ⟨(claimC9_theorem (fun _ _ _ => .error "knn query failed")
      (getMockEmbedding id) (.ok oneDocState) oneDocState
      { query := "breach of contract"
        maxResults := none
        threshold := none
        filters := none } 0).1 rfl,
   (claimC9_theorem (fun _ _ _ => .error "knn query failed")
      (getMockEmbedding id) (.ok oneDocState) oneDocState
      { query := "breach of contract"
        maxResults := none
        threshold := none
        filters := none } 0).2.2 rfl
      "knn query failed" rfl⟩

/-! ## Claim C5 -/

/-- C5 counterexample: a document is added via `addDocument` under the
deterministic fallback embedder and a later query uses text identical
to the document's content — certainly overlapping it — but carries a
`documentType` filter not matching the document's metadata type; the
post-hoc filter excludes the document, so the query does NOT return it,
refuting "every later query whose text overlaps the content returns the
document". -/
theorem claimC5_counterexample :
    (query singleKnn (getMockEmbedding id)
        (.ok { isInitialized := true, documents := [], vectors := [] })
        oneDocState
        { query := "breach of contract damages remedy"
          maxResults := none
          threshold := none
          filters := some { documentType := some ["statute"]
                            jurisdiction := none
                            dateRange := none
                            relevanceScore := none } } 0).map
      (fun r => r.documents.map (·.id)) = .ok [] := by
  with_unfolding_all rfl

/-- C5 (amended): under the deterministic fallback embedder,
`addDocument` into an empty initialized index followed by a query whose
text EQUALS the document's content, with no metadata filters and a
requested threshold at most 1, returns that document among its results
(determinism makes the query vector identical to the stored vector, so
the index returns it at distance 0 and score 1).  A query whose
metadata filters exclude the document, or whose merely-overlapping text
hashes to an unrelated vector, is not guaranteed to return it. -/
theorem claimC5_theorem (sin : ℚ → ℚ) (d : RagDoc)
    (knn : List (List ℚ) → List ℚ → ℕ → Except String (List (ℕ × ℚ)))
    (init : Except String RAGState) (request : RAGQueryRequest) (elapsed : ℤ)
    (hq : request.query = d.content)
    (hf : request.filters = none)
    (hθ : ∀ θ, request.threshold = some θ → θ ≤ 1)
    (hknn : ∀ qv k, 1 ≤ k → knn [qv] qv k = .ok [(0, 0)]) :
    ∃ r, query knn (getMockEmbedding sin) init
        (addDocument (getMockEmbedding sin)
          { isInitialized := true, documents := [], vectors := [] } d)
        request elapsed = .ok r ∧
      d.id ∈ r.documents.map (·.id) := by
  have hθ1 : jsOrRat request.threshold (7 / 10) ≤ 1 := jsOrRat_le_one _ hθ
  have hnlt : ¬ ((1 : ℚ) < jsOrRat request.threshold (7 / 10)) :=
    not_lt.mpr hθ1
  refine ⟨_, rfl, ?_⟩
  simp only [queryBody, addDocument, List.nil_append, hq, hf]
  have hss : searchSimilar knn
      { isInitialized := true, documents := [d],
        vectors := [getMockEmbedding sin d.content] }
      (getMockEmbedding sin d.content) (jsOrNat request.maxResults 10)
      (jsOrRat request.threshold (7 / 10)) = .ok [(d, 1)] := by
    unfold searchSimilar
    rw [if_neg (by simp)]
    rw [hknn (getMockEmbedding sin d.content) (jsOrNat request.maxResults 10)
      (jsOrNat_pos request.maxResults)]
    simp [List.filterMap_cons, hnlt]
  rw [hss]
  simp [applyFilters]

/-- C5 witness: the amended theorem instantiated at the sample document,
the deterministic embedder, and the single-point index behaviour. -/
theorem claimC5_witness :
    ∃ r, query singleKnn (getMockEmbedding id)
        (.ok { isInitialized := true, documents := [], vectors := [] })
        (addDocument (getMockEmbedding id)
          { isInitialized := true, documents := [], vectors := [] }
          sampleRagDoc)
        { query := "breach of contract damages remedy"
          maxResults := none
          threshold := none
          filters := none } 0 = .ok r ∧
      sampleRagDoc.id ∈ r.documents.map (·.id) :=
  claimC5_theorem id sampleRagDoc singleKnn
    (.ok { isInitialized := true, documents := [], vectors := [] })
    { query := "breach of contract damages remedy"
      maxResults := none
      threshold := none
      filters := none } 0 rfl rfl
    (by intro θ h; simp at h)
    (by
      intro qv k hk
      simp only [singleKnn]
      rw [if_neg (by omega)])

end RAGService

end Shirts
